import Mathlib

/-!
Verification of the Monitoring_Dashboard backend against its specification.

The Python backend (src/backend) is shallowly embedded here:
  * JSON values are modelled by the inductive type `Json` (numbers as integers;
    floats from the source are modelled as rationals `ℚ`).
  * Python `dict.get`, nested lookups, truthiness and the `or` operator are
    modelled by `dGet`, `get_nested`, `Json.truthy` and `jor`.
  * `datetime` instants are modelled as UTC epoch seconds (`Int`);
    `dateutil.parser.isoparse` is modelled by `isoParse` on the ISO-8601
    fragment `YYYY[-MM[-DD[THH:MM[:SS]][Z|±HH:MM]]]` used by the repository.
  * Python's stable `list.sort` / `sorted` are modelled by
    `List.insertionSort`, which is stable.
  * The store file is modelled as its list of lines (`List (List Char)`),
    split at the newline terminators.
String manipulation is done on `List Char` (`trimChars`, `lowerStr`, ...)
mirroring the corresponding Python `str` methods on the ASCII fragment.
-/

/-! ### Character/string helpers mirroring Python str methods -/

/-- Python `str.upper`, characterwise (ASCII-faithful). -/
def upperStr (s : String) : String := String.mk (s.data.map Char.toUpper)

/-- Python `str.lower`, characterwise (ASCII-faithful). -/
def lowerStr (s : String) : String := String.mk (s.data.map Char.toLower)

/-- Whitespace test used by Python `str.strip` (ASCII fragment). -/
def isWsChar (c : Char) : Bool := c = ' ' || c = '\t' || c = '\n' || c = '\r'

/-- Python `str.strip` on a character list. -/
def trimChars (cs : List Char) : List Char :=
  ((cs.dropWhile isWsChar).reverse.dropWhile isWsChar).reverse

/-- Lexicographic (code-point) order on character lists: Python string `<=`. -/
def lexLe : List Char → List Char → Bool
  | [], _ => true
  | _ :: _, [] => false
  | a :: as, b :: bs =>
    if a.toNat < b.toNat then true
    else if b.toNat < a.toNat then false
    else lexLe as bs

/-- Python string comparison `s <= t` (lexicographic on code points). -/
def strLe (s t : String) : Bool := lexLe s.data t.data

/-- Python string comparison `s < t`. -/
def strLt (s t : String) : Bool := strLe s t && !(s == t)

/-- Decimal digit character for `n < 10`. -/
def digitChar (n : Nat) : Char := Char.ofNat (48 + n)

/-- Decimal rendering of a natural number, fuel-based so that it reduces. -/
def renderNatFuel : Nat → Nat → List Char
  | 0, _ => []
  | f + 1, n => if n < 10 then [digitChar n] else renderNatFuel f (n / 10) ++ [digitChar (n % 10)]

/-- Decimal digits of a natural number (`repr`/`str` in Python). -/
def renderNat (n : Nat) : List Char := renderNatFuel (n + 1) n

/-- Decimal digits of an integer, Python `str(int)`. -/
def renderInt (n : Int) : List Char :=
  if n < 0 then '-' :: renderNat n.natAbs else renderNat n.natAbs

/-- Numeric value of a list of decimal digit characters (most significant first). -/
def natFromDigits (ds : List Char) : Nat := ds.foldl (fun a c => a * 10 + (c.toNat - 48)) 0

/-! ### JSON values

Python values flowing through the backend are JSON-shaped. `Json.num` models
both Python ints and the integer-valued floats appearing in the logs. -/

inductive Json where
  | null
  | bool (b : Bool)
  | num (n : Int)
  | str (s : String)
  | arr (elems : List Json)
  | obj (fields : List (String × Json))
deriving Repr, Inhabited

/-- Python truthiness of a JSON-shaped value. -/
def Json.truthy : Json → Bool
  | .null => false
  | .bool b => b
  | .num n => n != 0
  | .str s => s != ""
  | .arr xs => !xs.isEmpty
  | .obj kvs => !kvs.isEmpty

/-- Test for JSON null (Python `None`). -/
def Json.isNull : Json → Bool
  | .null => true
  | _ => false

/-- Test for a JSON object (Python `isinstance(x, dict)`). -/
def Json.isDict : Json → Bool
  | .obj _ => true
  | _ => false

/-- Python `a or b` on JSON-shaped values. -/
def jor (a b : Json) : Json := if a.truthy then a else b

/-- Python `d.get(k)` with default `None`; a stored JSON null and an absent key
both come back as Python `None`, modelled by `Json.null`. -/
def dGet (d : List (String × Json)) (k : String) : Json := (d.lookup k).getD Json.null

/-- Inner walk of `get_nested` over an arbitrary JSON value. -/
def getNestedVal : Json → List String → Json
  | cur, [] => cur
  | .obj kvs, k :: ks =>
    match kvs.lookup k with
    | some v => getNestedVal v ks
    | none => .null
  | _, _ :: _ => .null

/-- helpers.py `get_nested(d, path)`: safely read nested dict keys,
returning Python `None` (modelled `Json.null`) when a step fails. -/
def get_nested (d : List (String × Json)) (p : List String) : Json :=
  getNestedVal (.obj d) p

/-- Python `str(x)` of a JSON-shaped value. Containers are approximated by
their JSON rendering (Python `repr` differs only in quote style); every use in
the repository either receives a scalar or feeds a parser that rejects
container renderings. -/
def pyStr : Json → String
  | .null => "None"
  | .bool true => "True"
  | .bool false => "False"
  | .num n => String.mk (renderInt n)
  | .str s => s
  | .arr _ => "[...]"
  | .obj _ => "\x7b...\x7d"

/-! ### helpers.py numeric coercion -/

/-- Python `int(s)` on a string: optional sign and decimal digits
(other numeric bases and underscores are out of the repository's data scope). -/
def intFromString (s : String) : Option Int :=
  let cs := trimChars s.data
  match cs with
  | '-' :: ds =>
    if !ds.isEmpty && ds.all Char.isDigit then some (-(natFromDigits ds : Int)) else none
  | '+' :: ds =>
    if !ds.isEmpty && ds.all Char.isDigit then some ((natFromDigits ds : Int)) else none
  | ds =>
    if !ds.isEmpty && ds.all Char.isDigit then some ((natFromDigits ds : Int)) else none

/-- helpers.py `safe_int`: best-effort `int(x)`, `None` on failure.
Python `int(True) = 1`, `int(None)` raises, `int` of containers raises. -/
def safe_int : Json → Option Int
  | .null => none
  | .bool b => some (if b then 1 else 0)
  | .num n => some n
  | .str s => intFromString s
  | .arr _ => none
  | .obj _ => none

/-- Python `float(s)` on a string: optional sign, decimal digits with an
optional fractional part (exponents and specials are out of scope). -/
def ratFromString (s : String) : Option ℚ :=
  let cs := trimChars s.data
  let core := fun (ds : List Char) =>
    let intPart := ds.takeWhile Char.isDigit
    let rest := ds.dropWhile Char.isDigit
    match rest with
    | [] => if intPart.isEmpty then none else some ((natFromDigits intPart : ℚ))
    | '.' :: fs =>
      if fs.all Char.isDigit && !(intPart.isEmpty && fs.isEmpty) then
        some ((natFromDigits intPart : ℚ) + (natFromDigits fs : ℚ) / (10 ^ fs.length : ℚ))
      else none
    | _ => none
  match cs with
  | '-' :: ds => (core ds).map (fun q => -q)
  | '+' :: ds => core ds
  | ds => core ds

/-- helpers.py `safe_float`: best-effort `float(x)`, `None` on failure. -/
def safe_float : Json → Option ℚ
  | .null => none
  | .bool b => some (if b then 1 else 0)
  | .num n => some ((n : ℚ))
  | .str s => ratFromString s
  | .arr _ => none
  | .obj _ => none

/-! ### Timestamp parsing (dateutil.parser.isoparse, modelled) -/

/-- Value of a decimal digit character, if any. -/
def digitVal (c : Char) : Option Nat := if c.isDigit then some (c.toNat - 48) else none

/-- Two-digit decimal number from two characters. -/
def twoDigits (a b : Char) : Option Nat :=
  match digitVal a, digitVal b with
  | some x, some y => some (10 * x + y)
  | _, _ => none

/-- Four-digit decimal number from four characters. -/
def fourDigits (a b c d : Char) : Option Nat :=
  match twoDigits a b, twoDigits c d with
  | some x, some y => some (100 * x + y)
  | _, _ => none

/-- Gregorian leap-year test. -/
def isLeapYear (y : Int) : Bool :=
  (y.emod 4 = 0 && y.emod 100 != 0) || y.emod 400 = 0

/-- Days in a Gregorian month. -/
def daysInMonth (y : Int) (m : Nat) : Nat :=
  if m = 2 then (if isLeapYear y then 29 else 28)
  else if m = 4 || m = 6 || m = 9 || m = 11 then 30
  else 31

/-- Days from the Unix epoch to the given civil date (Julian-day formula,
floor divisions as in Python `//`). -/
def daysFromCivil (y : Int) (m d : Nat) : Int :=
  let a : Int := (14 - (m : Int)).fdiv 12
  let y2 : Int := y + 4800 - a
  let m2 : Int := (m : Int) + 12 * a - 3
  (d : Int) + (153 * m2 + 2).fdiv 5 + 365 * y2 + y2.fdiv 4 - y2.fdiv 100 + y2.fdiv 400
    - 32045 - 2440588

/-- UTC epoch seconds of a civil date-time. -/
def epochSecs (y : Int) (m d hh mi ss : Nat) : Int :=
  daysFromCivil y m d * 86400 + (hh : Int) * 3600 + (mi : Int) * 60 + (ss : Int)

/-- Trailing timezone designator: seconds east of UTC; absent means a naive
datetime, which parse_ts treats as UTC (offset 0). -/
def tzOffsetSecs : List Char → Option Int
  | [] => some 0
  | ['Z'] => some 0
  | ['+', h1, h2, ':', m1, m2] =>
    match twoDigits h1 h2, twoDigits m1 m2 with
    | some hh, some mm =>
      if hh < 24 && mm < 60 then some ((hh : Int) * 3600 + (mm : Int) * 60) else none
    | _, _ => none
  | ['-', h1, h2, ':', m1, m2] =>
    match twoDigits h1 h2, twoDigits m1 m2 with
    | some hh, some mm =>
      if hh < 24 && mm < 60 then some (-((hh : Int) * 3600 + (mm : Int) * 60)) else none
    | _, _ => none
  | _ => none

/-- Clock part `HH:MM[:SS]` followed by an optional timezone designator.
Returns hours, minutes, seconds and the timezone offset. -/
def clockPart : List Char → Option (Nat × Nat × Nat × Int)
  | h1 :: h2 :: ':' :: m1 :: m2 :: rest =>
    match twoDigits h1 h2, twoDigits m1 m2 with
    | some hh, some mm =>
      if hh < 24 && mm < 60 then
        match rest with
        | ':' :: s1 :: s2 :: rest2 =>
          match twoDigits s1 s2 with
          | some ss =>
            if ss < 60 then (tzOffsetSecs rest2).map (fun off => (hh, mm, ss, off)) else none
          | none => none
        | _ => (tzOffsetSecs rest).map (fun off => (hh, mm, 0, off))
      else none
    | _, _ => none
  | _ => none

/-- Model of `dateutil.parser.isoparse` followed by conversion to UTC,
on the grammar `YYYY[-MM[-DD[THH:MM[:SS]][tz]]]`: the result is UTC epoch
seconds. Fractional seconds and exotic ISO forms are outside the model. -/
def isoParse (s : String) : Option Int :=
  match s.data with
  | y1 :: y2 :: y3 :: y4 :: rest =>
    match fourDigits y1 y2 y3 y4 with
    | none => none
    | some y =>
      match rest with
      | [] => some (epochSecs (y : Int) 1 1 0 0 0)
      | '-' :: m1 :: m2 :: rest2 =>
        match twoDigits m1 m2 with
        | none => none
        | some m =>
          if 1 ≤ m && m ≤ 12 then
            match rest2 with
            | [] => some (epochSecs (y : Int) m 1 0 0 0)
            | '-' :: d1 :: d2 :: rest3 =>
              match twoDigits d1 d2 with
              | none => none
              | some d =>
                if 1 ≤ d && d ≤ daysInMonth (y : Int) m then
                  match rest3 with
                  | [] => some (epochSecs (y : Int) m d 0 0 0)
                  | 'T' :: rest4 =>
                    match clockPart rest4 with
                    | some (hh, mi, ss, off) => some (epochSecs (y : Int) m d hh mi ss - off)
                    | none => none
                  | _ => none
                else none
            | _ => none
          else none
      | _ => none
  | _ => none

/-- helpers.py / main.py `parse_ts`: `None` for falsy input, otherwise
ISO-parse `str(x)`, assuming UTC when no offset is present. -/
def parse_ts (x : Json) : Option Int :=
  if x.truthy then isoParse (pyStr x) else none

/-! ### Data model (models/data_models.py `LogEntry`, main.py `Row`) -/

structure LogEntry where
  timestamp : Int
  level : String
  event_type : String
  method : Option String
  path : Option String
  status_code : Option Int
  duration_ms : Option ℚ
  user_id : Option Int
  is_authenticated : Option Bool
  error_type : Option String
  error_message : Option String
deriving DecidableEq, Repr

/-- Python `str(v) if v is not None else None`. -/
def strOrNone (v : Json) : Option String :=
  if v.isNull then none else some (pyStr v)

/-- Candidate strings coerced to authenticated-true. -/
def authTrueStrs : List String := ["true", "1", "yes"]

/-- Candidate strings coerced to authenticated-false. -/
def authFalseStrs : List String := ["false", "0", "no"]

/-- main.py boolean coercion for the authentication value: the if/elif/else
over the trimmed lowercase string. -/
def coerceAuthMain (v : Json) : Option Bool :=
  let s := lowerStr (String.mk (trimChars (pyStr v).data))
  if s ∈ authTrueStrs then some true
  else if s ∈ authFalseStrs then some false
  else none

/-- parser.py boolean coercion for the authentication value: the conditional
expression `(s in T) if s in T+F else None`. -/
def coerceAuthP (v : Json) : Option Bool :=
  let s := lowerStr (String.mk (trimChars (pyStr v).data))
  if s ∈ authTrueStrs ++ authFalseStrs then some (decide (s ∈ authTrueStrs)) else none

/-- main.py conversion of the resolved authentication value to a tri-state
boolean: a literal boolean passes through, `None` stays unknown, anything
else goes through string coercion. -/
def authOfMain (v : Json) : Option Bool :=
  match v with
  | .bool b => some b
  | .null => none
  | w => coerceAuthMain w

/-- parser.py conversion of the resolved authentication value to a tri-state
boolean. -/
def authOfP (v : Json) : Option Bool :=
  match v with
  | .bool b => some b
  | .null => none
  | w => coerceAuthP w

/-- main.py `normalize(d)` (named `mainNormalize` here because Mathlib already
claims the name `normalize`): raw dict to `Row`; `None` when no timestamp
parses. Note the explicit `is None` check on the first candidate key for
status, duration and authentication (the rest of each chain uses `or`). -/
def mainNormalize (d : List (String × Json)) : Option LogEntry :=
  match parse_ts (jor (dGet d "timestamp") (jor (dGet d "time")
      (get_nested d ["meta", "timestamp"]))) with
  | none => none
  | some ts =>
    let method := jor (dGet d "method") (jor (get_nested d ["request", "method"])
      (get_nested d ["http", "method"]))
    let path := jor (dGet d "path") (jor (get_nested d ["request", "path"])
      (jor (get_nested d ["http", "path"]) (dGet d "endpoint")))
    let status_raw :=
      if (dGet d "status_code").isNull then
        jor (dGet d "status") (jor (get_nested d ["response", "status_code"])
          (get_nested d ["http", "status"]))
      else dGet d "status_code"
    let dur_raw :=
      if (dGet d "duration_ms").isNull then
        jor (dGet d "latency_ms") (jor (dGet d "response_time_ms")
          (get_nested d ["timing", "duration_ms"]))
      else dGet d "duration_ms"
    let ia :=
      if (dGet d "is_authenticated").isNull then
        jor (dGet d "authenticated") (get_nested d ["auth", "is_authenticated"])
      else dGet d "is_authenticated"
    let is_auth : Option Bool := authOfMain ia
    some {
      timestamp := ts
      level := pyStr (jor (dGet d "level") (jor (dGet d "severity") (.str "")))
      event_type := pyStr (jor (dGet d "event_type") (jor (dGet d "type") (.str "")))
      method := strOrNone method
      path := strOrNone path
      status_code := safe_int status_raw
      duration_ms := safe_float dur_raw
      user_id := safe_int (jor (dGet d "user_id") (get_nested d ["user", "id"]))
      is_authenticated := is_auth
      error_type := strOrNone (dGet d "error_type")
      error_message := strOrNone (dGet d "error_message") }

/-- main.py `is_request(r)`: `bool(r.path and r.method)`. -/
def is_request (r : LogEntry) : Bool :=
  (match r.path with | none => false | some s => s != "") &&
  (match r.method with | none => false | some s => s != "")

/-- main.py `is_error_row(r)`: `status_code >= 400` (when present) or
`level` upper-compares equal to ERROR. -/
def is_error_row (r : LogEntry) : Bool :=
  (match r.status_code with | some c => decide (400 ≤ c) | none => false)
  || (upperStr r.level == "ERROR")

namespace LogParser

/-- parser.py `LogParser.normalize(raw)`: identical to main.py's `normalize`
except that status, duration and authentication use plain `or` chains for
every candidate, including the first. -/
def normalize (d : List (String × Json)) : Option LogEntry :=
  match parse_ts (jor (dGet d "timestamp") (jor (dGet d "time")
      (get_nested d ["meta", "timestamp"]))) with
  | none => none
  | some ts =>
    let method := jor (dGet d "method") (jor (get_nested d ["request", "method"])
      (get_nested d ["http", "method"]))
    let path := jor (dGet d "path") (jor (get_nested d ["request", "path"])
      (jor (get_nested d ["http", "path"]) (dGet d "endpoint")))
    let status_raw :=
      jor (dGet d "status_code") (jor (dGet d "status")
        (jor (get_nested d ["response", "status_code"]) (get_nested d ["http", "status"])))
    let duration_raw :=
      jor (dGet d "duration_ms") (jor (dGet d "latency_ms")
        (jor (dGet d "response_time_ms") (get_nested d ["timing", "duration_ms"])))
    let is_auth_raw :=
      jor (dGet d "is_authenticated") (jor (dGet d "authenticated")
        (get_nested d ["auth", "is_authenticated"]))
    let is_auth : Option Bool := authOfP is_auth_raw
    some {
      timestamp := ts
      level := pyStr (jor (dGet d "level") (jor (dGet d "severity") (.str "")))
      event_type := pyStr (jor (dGet d "event_type") (jor (dGet d "type") (.str "")))
      method := strOrNone method
      path := strOrNone path
      status_code := safe_int status_raw
      duration_ms := safe_float duration_raw
      user_id := safe_int (jor (dGet d "user_id") (get_nested d ["user", "id"]))
      is_authenticated := is_auth
      error_type := strOrNone (dGet d "error_type")
      error_message := strOrNone (dGet d "error_message") }

/-- parser.py `LogParser.is_request(entry)`: `bool(entry.path and entry.method)`. -/
def is_request (e : LogEntry) : Bool :=
  (match e.path with | none => false | some s => s != "") &&
  (match e.method with | none => false | some s => s != "")

/-- parser.py `LogParser.is_error(entry)`. -/
def is_error (e : LogEntry) : Bool :=
  (match e.status_code with | some c => decide (400 ≤ c) | none => false)
  || (upperStr e.level == "ERROR")

end LogParser

/-! ### helpers.py `quantile` -/

/-- Python `int()` truncation toward zero on a rational. -/
def pyTrunc (q : ℚ) : Int := if q < 0 then ⌈q⌉ else ⌊q⌋

/-- Python list indexing: negative indices wrap from the end; out-of-range
raises (modelled as `none`). -/
def pyIndex (v : List ℚ) (i : Int) : Option ℚ :=
  let j := if i < 0 then (v.length : Int) + i else i
  if 0 ≤ j ∧ j < (v.length : Int) then v.get? j.toNat else none

/-- helpers.py `quantile(sorted_vals, q)`: linear percentile on a sorted
list. `none` models the (unreachable for quantiles in `[0,1]`) Python
IndexError. -/
def quantile (sorted_vals : List ℚ) (q : ℚ) : Option ℚ :=
  let n := sorted_vals.length
  if n = 0 then some 0
  else if n = 1 then sorted_vals.head?
  else
    let pos : ℚ := ((n : ℚ) - 1) * q
    let lo : Int := pyTrunc pos
    let hi : Int := min (lo + 1) ((n : Int) - 1)
    let frac : ℚ := pos - (lo : ℚ)
    match pyIndex sorted_vals lo, pyIndex sorted_vals hi with
    | some vlo, some vhi => some (vlo * (1 - frac) + vhi * frac)
    | _, _ => none

/-! ### aggregator.py `filter_by_window`

Timestamps are UTC epoch seconds, so `timedelta(minutes=m)` is `60 * m`. -/

/-- aggregator.py `Aggregator.filter_by_window(entries, minutes)`. -/
def filter_by_window (entries : List LogEntry) (minutes : Int) : List LogEntry :=
  match entries with
  | [] => []
  | e :: es =>
    let latest := es.foldl (fun acc x => max acc x.timestamp) e.timestamp
    let start := latest - 60 * minutes
    (e :: es).filter (fun x => decide (start ≤ x.timestamp) && decide (x.timestamp ≤ latest))


/-! ### aggregator.py `compute_traffic` -/

/-- Two-digit zero-padded decimal label: Python `f"..:02d"` / `strftime("%H")`. -/
def pad2 (i : Nat) : String :=
  if i < 10 then String.mk ['0', digitChar i] else String.mk (renderNat i)

/-- Hour-of-day of a UTC instant converted to a fixed local offset of `off`
seconds east of UTC (`datetime.astimezone()` to the server's zone, modelled as
a fixed offset). -/
def localHour (off : Int) (t : Int) : Nat := (((t + off).fdiv 3600).emod 24).toNat

/-- Python `hourly[h] = hourly.get(h, 0) + 1` on an insertion-ordered dict. -/
def bump : List (String × Nat) → String → List (String × Nat)
  | [], k => [(k, 1)]
  | (k2, v) :: rest, k => if k2 = k then (k2, v + 1) :: rest else (k2, v) :: bump rest k

/-- Python `dict.setdefault(k, v0)` on an insertion-ordered dict. -/
def setdefault (m : List (String × Nat)) (k : String) (v0 : Nat) : List (String × Nat) :=
  if (m.lookup k).isSome then m else m ++ [(k, v0)]

/-- aggregator.py `Aggregator.compute_traffic(entries)`, with the server's
local timezone modelled as the fixed offset `off` in seconds. The final
`dict(sorted(...))` sorts the items by key (keys are distinct, so comparing
by key agrees with Python's pair comparison); Python's `sorted` is modelled
by the stable `List.insertionSort`. -/
def compute_traffic (off : Int) (entries : List LogEntry) : List (String × Nat) :=
  let requests := entries.filter (fun e => LogParser.is_request e)
  let hourly := requests.foldl (fun m e => bump m (pad2 (localHour off e.timestamp))) []
  let full := (List.range 24).foldl (fun m i => setdefault m (pad2 i) 0) hourly
  List.insertionSort (fun a b => strLe a.1 b.1 = true) full

/-- The 24 hour labels "00".."23". -/
def hourLabels : List String := (List.range 24).map pad2

/-! ### aggregator.py `compute_endpoints` -/

structure EndpointStat where
  path : String
  count : Nat
  errors : Nat
  avg_response_time : ℚ
  p95_response_time : ℚ
  error_rate : ℚ
deriving DecidableEq, Repr

/-- Python truthiness-based test `e.status_code and e.status_code >= 400`
(`None` and `0` are falsy, hence not errors; equivalent to a presence test
since `0 < 400`). -/
def statusErr (e : LogEntry) : Bool :=
  match e.status_code with
  | none => false
  | some c => if c = 0 then false else decide (400 ≤ c)

/-- Python `sorted(...)` on rationals. -/
def sortedRats (l : List ℚ) : List ℚ :=
  List.insertionSort (fun a b => a ≤ b) l

/-- Per-endpoint statistics body from aggregator.py `compute_endpoints`.
The `.getD 0` discharges `quantile`'s modelled IndexError, which is
unreachable at `q = 0.95` on a non-empty list (`quantile_isSome` below). -/
def endpointStatOf (p : String) (items : List LogEntry) : EndpointStat :=
  let count := items.length
  let errors := items.countP statusErr
  let durs := sortedRats (items.filterMap (fun e => e.duration_ms))
  let avg : ℚ := if durs.isEmpty then 0 else durs.sum / (durs.length : ℚ)
  let p95 : ℚ := if durs.isEmpty then 0 else (quantile durs (19 / 20)).getD 0
  let er : ℚ := if count = 0 then 0 else (errors : ℚ) / (count : ℚ) * 100
  { path := p, count := count, errors := errors, avg_response_time := avg,
    p95_response_time := p95, error_rate := er }

/-- The filter in compute_endpoints: `is_request(e) and e.path`. -/
def endpointRequests (entries : List LogEntry) : List LogEntry :=
  entries.filter (fun e => LogParser.is_request e &&
    (match e.path with | none => false | some s => s != ""))

/-- The key under which an entry is bucketed (`e.path`, guaranteed present and
non-empty by the filter). -/
def pathD (e : LogEntry) : String := e.path.getD ""

/-- Python `buckets.setdefault(e.path, []).append(e)` on an insertion-ordered
dict. -/
def addToBucket :
    List (String × List LogEntry) → String → LogEntry → List (String × List LogEntry)
  | [], p, e => [(p, [e])]
  | (q, es) :: rest, p, e =>
    if q = p then (q, es ++ [e]) :: rest else (q, es) :: addToBucket rest p e

/-- The endpoint buckets of aggregator.py `compute_endpoints`. -/
def endpointBuckets (entries : List LogEntry) : List (String × List LogEntry) :=
  (endpointRequests entries).foldl (fun m e => addToBucket m (pathD e) e) []

/-- The unsorted per-endpoint stats, in bucket (discovery) order. -/
def endpointStatsRaw (entries : List LogEntry) : List EndpointStat :=
  (endpointBuckets entries).map (fun kv => endpointStatOf kv.1 kv.2)

/-- The chosen sort key: `p95_response_time` when `sort_by` lowercases to
"p95", else `count`. -/
def epKey (sort_by : String) (s : EndpointStat) : ℚ :=
  if lowerStr sort_by = "p95" then s.p95_response_time else (s.count : ℚ)

/-- aggregator.py `Aggregator.compute_endpoints`: group, compute stats, sort
(Python `list.sort` is stable, and with `reverse=True` equal-key elements keep
their original order: modelled by a stable sort under the flipped comparator),
then truncate to `limit`. -/
def compute_endpoints (entries : List LogEntry) (limit : Nat) (sort_by order : String) :
    List EndpointStat :=
  let stats := endpointStatsRaw entries
  let sorted :=
    if lowerStr order = "asc" then
      List.insertionSort (fun a b => epKey sort_by a ≤ epKey sort_by b) stats
    else
      List.insertionSort (fun a b => epKey sort_by b ≤ epKey sort_by a) stats
  sorted.take limit

/-- First-occurrence deduplication: the discovery order of keys. -/
def discoveryKeys (ps : List String) : List String :=
  ps.foldl (fun acc p => if p ∈ acc then acc else acc ++ [p]) []

/-- Specification-side grouping: one stat per distinct path, in discovery
order, each over the exact-path-equality filter. -/
def specEndpointStats (entries : List LogEntry) : List EndpointStat :=
  (discoveryKeys ((endpointRequests entries).map pathD)).map
    (fun p => endpointStatOf p ((endpointRequests entries).filter (fun e => pathD e == p)))

/-! ### JSON rendering (Python `json.dumps(..., ensure_ascii=False)`) -/

/-- Hex digit character (lowercase, as Python json emits). -/
def hexDigit (n : Nat) : Char := if n < 10 then digitChar n else Char.ofNat (87 + n)

/-- JSON escaping of one character. -/
def escChar (c : Char) : List Char :=
  if c = '"' then ['\\', '"']
  else if c = '\\' then ['\\', '\\']
  else if c = '\n' then ['\\', 'n']
  else if c = '\t' then ['\\', 't']
  else if c = '\r' then ['\\', 'r']
  else if c.toNat = 8 then ['\\', 'b']
  else if c.toNat = 12 then ['\\', 'f']
  else if c.toNat < 32 then ['\\', 'u', '0', '0', hexDigit (c.toNat / 16), hexDigit (c.toNat % 16)]
  else [c]

/-- JSON escaping of a character list. -/
def escapeChars : List Char → List Char
  | [] => []
  | c :: cs => escChar c ++ escapeChars cs

/-- A rendered JSON string literal. -/
def renderStringLit (s : String) : List Char := '"' :: escapeChars s.data ++ ['"']

mutual

/-- Rendering of a JSON value with Python json's default separators. -/
def Json.render : Json → List Char
  | .null => 'n' :: ['u', 'l', 'l']
  | .bool true => 't' :: ['r', 'u', 'e']
  | .bool false => 'f' :: ['a', 'l', 's', 'e']
  | .num n => renderInt n
  | .str s => renderStringLit s
  | .arr [] => ['[', ']']
  | .arr (x :: xs) => '[' :: (Json.render x ++ renderArrTail xs ++ [']'])
  | .obj [] => ['\x7b', '\x7d']
  | .obj (kv :: kvs) => '\x7b' :: (renderMember kv ++ renderObjTail kvs ++ ['\x7d'])

/-- One `"key": value` member. -/
def renderMember : String × Json → List Char
  | (k, v) => renderStringLit k ++ (':' :: ' ' :: Json.render v)

/-- Remaining array elements, each preceded by ", ". -/
def renderArrTail : List Json → List Char
  | [] => []
  | x :: xs => ',' :: ' ' :: (Json.render x ++ renderArrTail xs)

/-- Remaining object members, each preceded by ", ". -/
def renderObjTail : List (String × Json) → List Char
  | [] => []
  | kv :: kvs => ',' :: ' ' :: (renderMember kv ++ renderObjTail kvs)

end

/-! ### JSON parsing (Python `json.loads`, integer-number fragment) -/

/-- Skip JSON whitespace. -/
def skipWs (l : List Char) : List Char := l.dropWhile (fun c => isWsChar c)

/-- Longest digit prefix and the remainder. -/
def spanDigits (l : List Char) : List Char × List Char :=
  (l.takeWhile Char.isDigit, l.dropWhile Char.isDigit)

/-- Hex digit value. -/
def hexVal (c : Char) : Option Nat :=
  if c.isDigit then some (c.toNat - 48)
  else if 97 ≤ c.toNat && c.toNat ≤ 102 then some (c.toNat - 87)
  else if 65 ≤ c.toNat && c.toNat ≤ 70 then some (c.toNat - 55)
  else none

/-- JSON string body after the opening quote: unescape, and return the content
together with the input following the closing quote. -/
def parseStringBody : List Char → Option (List Char × List Char)
  | [] => none
  | '"' :: rest => some ([], rest)
  | '\\' :: 'u' :: a :: b :: c :: d :: rest =>
    (match hexVal a, hexVal b, hexVal c, hexVal d with
     | some x1, some x2, some x3, some x4 =>
       (parseStringBody rest).map
         (fun r => (Char.ofNat (((x1 * 16 + x2) * 16 + x3) * 16 + x4) :: r.1, r.2))
     | _, _, _, _ => none)
  | '\\' :: e :: rest =>
    ((match e with
      | '"' => some '"'
      | '\\' => some '\\'
      | '/' => some '/'
      | 'n' => some '\n'
      | 't' => some '\t'
      | 'r' => some '\r'
      | 'b' => some (Char.ofNat 8)
      | 'f' => some (Char.ofNat 12)
      | _ => none : Option Char)).bind
      (fun ch => (parseStringBody rest).map (fun r => (ch :: r.1, r.2)))
  | c :: rest => (parseStringBody rest).map (fun r => (c :: r.1, r.2))

/-- JSON integer token: optional minus, then digits (greedy). -/
def parseIntTok : List Char → Option (Int × List Char)
  | '-' :: rest =>
    let r := spanDigits rest
    if r.1.isEmpty then none else some (-(natFromDigits r.1 : Int), r.2)
  | l =>
    let r := spanDigits l
    if r.1.isEmpty then none else some ((natFromDigits r.1 : Int), r.2)

mutual

/-- Parse one JSON value; fuel decreases on each nested call and each
recursive call consumes input, so any fuel exceeding the input length (or the
value's `fuelSize`) gives the same result. -/
def parseVal : Nat → List Char → Option (Json × List Char)
  | 0, _ => none
  | fuel + 1, l =>
    match skipWs l with
    | 'n' :: 'u' :: 'l' :: 'l' :: rest => some (.null, rest)
    | 't' :: 'r' :: 'u' :: 'e' :: rest => some (.bool true, rest)
    | 'f' :: 'a' :: 'l' :: 's' :: 'e' :: rest => some (.bool false, rest)
    | '"' :: rest => (parseStringBody rest).map (fun r => (.str (String.mk r.1), r.2))
    | '[' :: rest =>
      (match skipWs rest with
       | ']' :: rest2 => some (.arr [], rest2)
       | _ =>
         match parseVal fuel rest with
         | some (v, rest2) => (parseArrTail fuel rest2).map (fun r => (.arr (v :: r.1), r.2))
         | none => none)
    | '\x7b' :: rest =>
      (match skipWs rest with
       | '\x7d' :: rest2 => some (.obj [], rest2)
       | _ =>
         match parseMember fuel rest with
         | some (kv, rest2) => (parseObjTail fuel rest2).map (fun r => (.obj (kv :: r.1), r.2))
         | none => none)
    | l2 => (parseIntTok l2).map (fun r => (.num r.1, r.2))

/-- Parse the elements after the first in an array, up to `]`. -/
def parseArrTail : Nat → List Char → Option (List Json × List Char)
  | 0, _ => none
  | fuel + 1, l =>
    match skipWs l with
    | ']' :: rest => some ([], rest)
    | ',' :: rest =>
      (match parseVal fuel rest with
       | some (v, rest2) => (parseArrTail fuel rest2).map (fun r => (v :: r.1, r.2))
       | none => none)
    | _ => none

/-- Parse one `"key": value` member. -/
def parseMember : Nat → List Char → Option ((String × Json) × List Char)
  | 0, _ => none
  | fuel + 1, l =>
    match skipWs l with
    | '"' :: rest =>
      (match parseStringBody rest with
       | some (k, rest2) =>
         (match skipWs rest2 with
          | ':' :: rest3 => (parseVal fuel rest3).map (fun r => ((String.mk k, r.1), r.2))
          | _ => none)
       | none => none)
    | _ => none

/-- Parse the members after the first in an object, up to the closing brace. -/
def parseObjTail : Nat → List Char → Option (List (String × Json) × List Char)
  | 0, _ => none
  | fuel + 1, l =>
    match skipWs l with
    | '\x7d' :: rest => some ([], rest)
    | ',' :: rest =>
      (match parseMember fuel rest with
       | some (kv, rest2) => (parseObjTail fuel rest2).map (fun r => (kv :: r.1, r.2))
       | none => none)
    | _ => none

end

mutual

/-- Fuel needed by `parseVal` on `Json.render`. -/
def Json.fuelSize : Json → Nat
  | .null => 1
  | .bool _ => 1
  | .num _ => 1
  | .str _ => 1
  | .arr xs => 2 + Json.fuelSizeList xs
  | .obj kvs => 2 + Json.fuelSizeObj kvs

/-- Fuel needed by `parseArrTail` (minus one) on rendered elements. -/
def Json.fuelSizeList : List Json → Nat
  | [] => 0
  | x :: xs => Json.fuelSize x + 1 + Json.fuelSizeList xs

/-- Fuel needed by `parseObjTail` (minus one) on rendered members. -/
def Json.fuelSizeObj : List (String × Json) → Nat
  | [] => 0
  | kv :: kvs => Json.fuelSize kv.2 + 1 + Json.fuelSizeObj kvs

end

/-- Model of Python `json.loads` on a complete document: whitespace around the
single value is allowed, trailing garbage rejected. The fuel `2 * length + 2`
exceeds every need (each unit of fuel spent consumes input, and
`fuelSize_le_twice_render` below covers rendered inputs). -/
def Json.parse (cs : List Char) : Option Json :=
  match parseVal (2 * cs.length + 2) cs with
  | some (j, rest) => if (skipWs rest).isEmpty then some j else none
  | none => none

/-! ### storage.py `LogStore`

The store file is modelled by its list of lines: the written file always ends
with exactly one final newline, so the lines are the newline-terminated
segments. -/

/-- Upload result metadata (mode and written count). -/
structure UploadMeta where
  mode : String
  written : Nat
deriving DecidableEq, Repr

/-- storage.py `LogStore._write_jsonl(items)`: the lines written (one JSON
object per line, non-dict elements silently skipped) with the written count. -/
def write_jsonl : List Json → List (List Char) × Nat
  | [] => ([], 0)
  | it :: rest =>
    let r := write_jsonl rest
    if it.isDict then (it.render :: r.1, r.2 + 1) else r

/-- storage.py `LogStore.read_lines()`: strip each line and skip blanks. -/
def read_lines (store : List (List Char)) : List (List Char) :=
  (store.map trimChars).filter (fun l => !l.isEmpty)

/-- Keys probed for a wrapped list, in priority order. -/
def wrapKeys : List String := ["logs", "events", "entries", "data", "items"]

/-- The first wrap key present with a list value, with that list. -/
def findListKey (kvs : List (String × Json)) : Option (String × List Json) :=
  wrapKeys.findSome? (fun k =>
    match kvs.lookup k with
    | some (Json.arr xs) => some (k, xs)
    | _ => none)

/-- Split at newline characters (Python `str.splitlines` on newline-only
texts; also the line decomposition of the written file). -/
def splitNl : List Char → List (List Char)
  | [] => [[]]
  | '\n' :: rest => [] :: splitNl rest
  | c :: rest =>
    match splitNl rest with
    | [] => [[c]]
    | l :: ls => (c :: l) :: ls

/-- storage.py `LogStore.save_upload(content)` as a state transition on the
store's lines: the new store and the result. Errors are raised before the
file is opened for write, so they leave the store unchanged. -/
def save_upload (store : List (List Char)) (content : List Char) :
    List (List Char) × Except String UploadMeta :=
  if content.isEmpty then (store, .error "Empty file content")
  else
    let text := trimChars content
    if text.isEmpty then (store, .error "Empty file after decoding")
    else
      match Json.parse text with
      | some (Json.arr xs) =>
        let r := write_jsonl xs
        (r.1, .ok { mode := "json_array", written := r.2 })
      | some (Json.obj kvs) =>
        (match findListKey kvs with
         | some (k, xs) =>
           let r := write_jsonl xs
           (r.1, .ok { mode := "json_object." ++ k, written := r.2 })
         | none =>
           let r := write_jsonl [Json.obj kvs]
           (r.1, .ok { mode := "single_json_object", written := r.2 }))
      | _ =>
        (splitNl text,
         .ok { mode := "raw_jsonl",
               written := (splitNl text).countP (fun l => !(trimChars l).isEmpty) })

/-- Whether an upload result is a reported error. -/
def isErrResult : Except String UploadMeta → Bool
  | .error _ => true
  | .ok _ => false



/-! ### Specification-side definitions and concrete samples -/

/-- Test for a JSON array. -/
def Json.isArr : Json → Bool
  | .arr _ => true
  | _ => false

/-- A chain of candidate accessors combined with Python `or`, exactly as the
source chains `c1 or c2 or ... or cn` associate (`or` is associative on
values, so the grouping is immaterial). -/
def resolveChain (d : List (String × Json)) : List (List (String × Json) → Json) → Json
  | [] => Json.null
  | [c] => c d
  | c :: cs => jor (c d) (resolveChain d cs)

/-- The fallback chain for `method`. -/
def methodChain : List (List (String × Json) → Json) :=
  [fun d => dGet d "method", fun d => get_nested d ["request", "method"],
   fun d => get_nested d ["http", "method"]]

/-- The fallback chain for `path`. -/
def pathChain : List (List (String × Json) → Json) :=
  [fun d => dGet d "path", fun d => get_nested d ["request", "path"],
   fun d => get_nested d ["http", "path"], fun d => dGet d "endpoint"]

/-- The fallback chain for `status`. -/
def statusChain : List (List (String × Json) → Json) :=
  [fun d => dGet d "status_code", fun d => dGet d "status",
   fun d => get_nested d ["response", "status_code"], fun d => get_nested d ["http", "status"]]

/-- The fallback chain for `duration`. -/
def durationChain : List (List (String × Json) → Json) :=
  [fun d => dGet d "duration_ms", fun d => dGet d "latency_ms",
   fun d => dGet d "response_time_ms", fun d => get_nested d ["timing", "duration_ms"]]

/-- The fallback chain for `authentication`. -/
def authChain : List (List (String × Json) → Json) :=
  [fun d => dGet d "is_authenticated", fun d => dGet d "authenticated",
   fun d => get_nested d ["auth", "is_authenticated"]]

/-- The fallback chain for `user id`. -/
def userChain : List (List (String × Json) → Json) :=
  [fun d => dGet d "user_id", fun d => get_nested d ["user", "id"]]

/-- The value at key `k` is absent/null or truthy (not a present falsy value
such as `0`, `false` or `""`). -/
def keyNice (d : List (String × Json)) (k : String) : Bool :=
  (dGet d k).isNull || (dGet d k).truthy

/-- The sorted (untruncated) endpoint stats of `compute_endpoints`. -/
def epSorted (entries : List LogEntry) (sort_by order : String) : List EndpointStat :=
  if lowerStr order = "asc" then
    List.insertionSort (fun a b => epKey sort_by a ≤ epKey sort_by b) (endpointStatsRaw entries)
  else
    List.insertionSort (fun a b => epKey sort_by b ≤ epKey sort_by a) (endpointStatsRaw entries)

/-- A blank normalized entry used to build concrete test events. -/
def baseEntry : LogEntry :=
  { timestamp := 0, level := "", event_type := "", method := none, path := none,
    status_code := none, duration_ms := none, user_id := none,
    is_authenticated := none, error_type := none, error_message := none }

/-- Concrete events at 09:00, 10:00, 11:00 UTC (epoch seconds). -/
def winEntries : List LogEntry :=
  [{ baseEntry with timestamp := 32400 }, { baseEntry with timestamp := 36000 },
   { baseEntry with timestamp := 39600 }]

/-- A raw record whose `endpoint` key holds the empty string. -/
def reqRecC6 : List (String × Json) :=
  [("timestamp", .str "2024-01-01T00:00:00Z"), ("method", .str "GET"), ("endpoint", .str "")]

/-- The normalization of `reqRecC6`. -/
def entryC6 : LogEntry :=
  { timestamp := 1704067200, level := "", event_type := "", method := some "GET",
    path := some "", status_code := none, duration_ms := none, user_id := none,
    is_authenticated := none, error_type := none, error_message := none }

/-- A raw record with literal `false` at `authenticated` and `true` at the
nested `auth.is_authenticated`. -/
def authRecC2 : List (String × Json) :=
  [("timestamp", .str "2024-01-01T00:00:00Z"), ("authenticated", .bool false),
   ("auth", .obj [("is_authenticated", .bool true)])]

/-- A raw record with `0` at `status_code` and `7` at `status`. -/
def statusRec07 : List (String × Json) :=
  [("timestamp", .str "2024-01-01T00:00:00Z"), ("status_code", .num 0), ("status", .num 7)]

/-- A raw record with `0` at `status_code` and no other status key. -/
def statusRec0 : List (String × Json) :=
  [("timestamp", .str "2024-01-01T00:00:00Z"), ("status_code", .num 0)]

/-- A raw record whose status, duration and authentication keys all hold
truthy values. -/
def niceRec : List (String × Json) :=
  [("timestamp", .str "2024-01-01T00:00:00Z"), ("status_code", .num 200),
   ("duration_ms", .num 5), ("is_authenticated", .bool true), ("method", .str "GET"),
   ("path", .str "/a")]

/-- A concrete upload payload: a JSON array of two objects. -/
def payloadC7 : List Char :=
  Json.render (Json.arr [Json.obj [("a", Json.num 1)], Json.obj [("b", Json.str "x")]])

/-- Concrete request-like entries on paths /a, /a, /b (no durations, so the
derived rational statistics evaluate by `rfl`). -/
def epEntries : List LogEntry :=
  [{ baseEntry with timestamp := 1, method := some "GET", path := some "/a" },
   { baseEntry with timestamp := 2, method := some "GET", path := some "/a" },
   { baseEntry with timestamp := 3, method := some "GET", path := some "/b" }]

/-! ## Theorems -/

/-- Helper: in-range `get?` produces the `getD` value. -/
theorem get?_eq_some_getD (l : List ℚ) (k : Nat) (h : k < l.length) :
    l.get? k = some (l.getD k 0) := by
  simp [List.get?_eq_getElem?, List.getElem?_eq_getElem h, List.getD_eq_getElem?_getD]

/-- C3: the window selection returns the empty list on an empty event list,
for every window size; otherwise, with the anchor equal to the maximum
timestamp over all events, it returns exactly the events whose timestamp t
satisfies anchor - 60*minutes <= t <= anchor, inclusive on both ends (the
anchor comes from the data, never from the system clock). -/
theorem filter_by_window_spec :
    (∀ m : Int, filter_by_window [] m = [])
  ∧ (∀ (entries : List LogEntry) (m anchor : Int),
      (entries.map LogEntry.timestamp).max? = some anchor →
      filter_by_window entries m =
        entries.filter (fun e =>
          decide (anchor - 60 * m ≤ e.timestamp) && decide (e.timestamp ≤ anchor))) := by
  constructor
  · intro m
    rfl
  · intro entries m anchor h
    cases entries with
    | nil => simp [List.max?] at h
    | cons e es =>
      have h1 : (List.map LogEntry.timestamp (e :: es)).max? =
          some ((List.map LogEntry.timestamp es).foldl max e.timestamp) := rfl
      rw [h1] at h
      have h3 := Option.some.inj h
      rw [List.foldl_map] at h3
      rw [← h3]
      rfl

/-- C3 witness: the spec scenario at 09:00/10:00/11:00 UTC with a 60-minute
window; the anchor is 11:00 UTC (epoch 39600) and only the 10:00 and 11:00
events survive. -/
theorem filter_by_window_spec_witness :
    (winEntries.map LogEntry.timestamp).max? = some 39600 ∧
    filter_by_window winEntries 60 =
      winEntries.filter (fun e =>
        decide (39600 - 60 * 60 ≤ e.timestamp) && decide (e.timestamp ≤ 39600)) ∧
    filter_by_window winEntries 60 =
      [{ baseEntry with timestamp := 36000 }, { baseEntry with timestamp := 39600 }] :=
  ⟨by decide, filter_by_window_spec.2 winEntries 60 39600 (by decide), by decide⟩

/-- C5: an event is an error iff its status_code is present and at least 400,
or its level case-insensitively equals "ERROR"; the three concrete spec
examples hold, and main.py's `is_error_row` agrees with parser.py's
`is_error`. -/
theorem is_error_spec :
    (∀ e : LogEntry, LogParser.is_error e = true ↔
      ((∃ c, e.status_code = some c ∧ 400 ≤ c) ∨ upperStr e.level = "ERROR"))
  ∧ (∀ e, is_error_row e = LogParser.is_error e)
  ∧ LogParser.is_error { baseEntry with status_code := some 500, level := "INFO" } = true
  ∧ LogParser.is_error { baseEntry with status_code := some 200, level := "error" } = true
  ∧ LogParser.is_error { baseEntry with status_code := some 200, level := "INFO" } = false := by
  refine ⟨?_, fun e => rfl, by decide, by decide, by decide⟩
  intro e
  unfold LogParser.is_error
  cases h : e.status_code with
  | none => simp [h, beq_iff_eq]
  | some c =>
    by_cases h4 : 400 ≤ c <;> simp_all [beq_iff_eq]

/-- C6 (amended): an event is classified request-like iff its method and its
path are both present and non-empty (Python truthiness); a present
status_code is not required. main.py's `is_request` agrees with parser.py's. -/
theorem is_request_spec :
    (∀ e : LogEntry, LogParser.is_request e = true ↔
      ((∃ m, e.method = some m ∧ m ≠ "") ∧ (∃ p, e.path = some p ∧ p ≠ "")))
  ∧ (∀ e, is_request e = LogParser.is_request e)
  ∧ LogParser.is_request
      { baseEntry with method := some "GET", path := some "/a", status_code := none } = true := by
  refine ⟨?_, fun e => rfl, by decide⟩
  intro e
  unfold LogParser.is_request
  cases hp : e.path with
  | none => simp [hp]
  | some p =>
    cases hm : e.method with
    | none => simp [hp, hm]
    | some m =>
      constructor
      · intro h
        simp only [Bool.and_eq_true, bne_iff_ne, ne_eq] at h
        exact ⟨⟨m, rfl, h.2⟩, ⟨p, rfl, h.1⟩⟩
      · rintro ⟨⟨m2, hm2, hm2ne⟩, ⟨p2, hp2, hp2ne⟩⟩
        have hmm : m = m2 := Option.some.inj hm2
        have hpp : p = p2 := Option.some.inj hp2
        subst hmm
        subst hpp
        simp only [Bool.and_eq_true, bne_iff_ne, ne_eq]
        exact ⟨hp2ne, hm2ne⟩

/-- C6 counterexample: `reqRecC6` normalizes to an event whose method is
present ("GET") and whose path is present (the empty string, extracted from
the `endpoint` key), yet the event is not classified as request-like. -/
theorem is_request_counterexample :
    LogParser.normalize reqRecC6 = some entryC6
  ∧ entryC6.method.isSome = true ∧ entryC6.path.isSome = true
  ∧ LogParser.is_request entryC6 = false :=
  ⟨by decide, rfl, rfl, rfl⟩

/-- C4: quantile returns 0 on the empty list and the sole element on a
singleton (for every q); for n >= 2 and a quantile q in [0, 1] it returns
v[lo]*(1-frac) + v[hi]*frac with pos = (n-1)*q, lo = floor pos,
hi = min (lo+1) (n-1), frac = pos - lo; in particular
quantile [10,20,30,40] 0.5 = 25 and quantile [42] q = 42 for every q. -/
theorem quantile_spec :
    (∀ q : ℚ, quantile [] q = some 0)
  ∧ (∀ v q : ℚ, quantile [v] q = some v)
  ∧ (∀ (l : List ℚ) (q : ℚ), 2 ≤ l.length → 0 ≤ q → q ≤ 1 →
      quantile l q =
        some (l.getD (⌊((l.length : ℚ) - 1) * q⌋).toNat 0 *
            (1 - (((l.length : ℚ) - 1) * q - (⌊((l.length : ℚ) - 1) * q⌋ : ℚ))) +
          l.getD (min ((⌊((l.length : ℚ) - 1) * q⌋).toNat + 1) (l.length - 1)) 0 *
            (((l.length : ℚ) - 1) * q - (⌊((l.length : ℚ) - 1) * q⌋ : ℚ))))
  ∧ quantile [10, 20, 30, 40] (1 / 2) = some 25
  ∧ (∀ q : ℚ, quantile [42] q = some 42) := by
  have main : ∀ (l : List ℚ) (q : ℚ), 2 ≤ l.length → 0 ≤ q → q ≤ 1 →
      quantile l q =
        some (l.getD (⌊((l.length : ℚ) - 1) * q⌋).toNat 0 *
            (1 - (((l.length : ℚ) - 1) * q - (⌊((l.length : ℚ) - 1) * q⌋ : ℚ))) +
          l.getD (min ((⌊((l.length : ℚ) - 1) * q⌋).toNat + 1) (l.length - 1)) 0 *
            (((l.length : ℚ) - 1) * q - (⌊((l.length : ℚ) - 1) * q⌋ : ℚ))) := by
    intro l q hlen h0 h1
    have hn2 : (2 : ℚ) ≤ (l.length : ℚ) := by exact_mod_cast hlen
    have hpos0 : (0 : ℚ) ≤ ((l.length : ℚ) - 1) * q := by nlinarith
    have hposle : ((l.length : ℚ) - 1) * q ≤ (l.length : ℚ) - 1 := by nlinarith
    have hfl0 : 0 ≤ ⌊((l.length : ℚ) - 1) * q⌋ := Int.floor_nonneg.mpr hpos0
    have hfl : ⌊((l.length : ℚ) - 1) * q⌋ ≤ (l.length : Int) - 1 := by
      have h2 : ((⌊((l.length : ℚ) - 1) * q⌋ : Int) : ℚ) ≤ (l.length : ℚ) - 1 :=
        le_trans (Int.floor_le _) hposle
      exact_mod_cast h2
    have hpt : pyTrunc (((l.length : ℚ) - 1) * q) = ⌊((l.length : ℚ) - 1) * q⌋ := by
      unfold pyTrunc
      rw [if_neg (not_lt.mpr hpos0)]
    have hidx1 : pyIndex l ⌊((l.length : ℚ) - 1) * q⌋ =
        some (l.getD (⌊((l.length : ℚ) - 1) * q⌋).toNat 0) := by
      unfold pyIndex
      rw [if_neg (not_lt.mpr hfl0), if_pos (by omega)]
      exact get?_eq_some_getD l _ (by omega)
    have hmin0 : ¬ (min (⌊((l.length : ℚ) - 1) * q⌋ + 1) ((l.length : Int) - 1) < 0) := by
      simp only [not_lt, le_min_iff]
      omega
    have hidx2 : pyIndex l (min (⌊((l.length : ℚ) - 1) * q⌋ + 1) ((l.length : Int) - 1)) =
        some (l.getD (min ((⌊((l.length : ℚ) - 1) * q⌋).toNat + 1) (l.length - 1)) 0) := by
      unfold pyIndex
      rw [if_neg hmin0, if_pos (by constructor <;> [omega; exact by rw [min_lt_iff]; right; omega])]
      have harg : (min (⌊((l.length : ℚ) - 1) * q⌋ + 1) ((l.length : Int) - 1)).toNat =
          min ((⌊((l.length : ℚ) - 1) * q⌋).toNat + 1) (l.length - 1) := by omega
      rw [harg]
      exact get?_eq_some_getD l _ (by omega)
    simp only [quantile]
    rw [if_neg (by omega), if_neg (by omega), hpt, hidx1, hidx2]
  refine ⟨fun q => rfl, fun v q => rfl, main, ?_, fun q => rfl⟩
  have h25 := main [10, 20, 30, 40] (1 / 2) (by norm_num) (by norm_num) (by norm_num)
  rw [h25]
  have hlen4 : ([10, 20, 30, 40] : List ℚ).length = 4 := rfl
  rw [hlen4]
  have hfl32 : ⌊(((4 : Nat) : ℚ) - 1) * (1 / 2)⌋ = 1 := by
    rw [Int.floor_eq_iff]
    norm_num
  rw [hfl32]
  norm_num [List.getD]

/-- C4 witness: the interpolation branch evaluated at [10, 20, 30, 40] with
q = 1/2 (all hypotheses hold there). -/
theorem quantile_spec_witness :
    2 ≤ ([10, 20, 30, 40] : List ℚ).length ∧ (0 : ℚ) ≤ 1 / 2 ∧ (1 / 2 : ℚ) ≤ 1 ∧
    quantile [10, 20, 30, 40] (1 / 2) =
      some (([10, 20, 30, 40] : List ℚ).getD
          (⌊((([10, 20, 30, 40] : List ℚ).length : ℚ) - 1) * (1 / 2)⌋).toNat 0 *
          (1 - (((([10, 20, 30, 40] : List ℚ).length : ℚ) - 1) * (1 / 2) -
            (⌊((([10, 20, 30, 40] : List ℚ).length : ℚ) - 1) * (1 / 2)⌋ : ℚ))) +
        ([10, 20, 30, 40] : List ℚ).getD
          (min ((⌊((([10, 20, 30, 40] : List ℚ).length : ℚ) - 1) * (1 / 2)⌋).toNat + 1)
            (([10, 20, 30, 40] : List ℚ).length - 1)) 0 *
          (((([10, 20, 30, 40] : List ℚ).length : ℚ) - 1) * (1 / 2) -
            (⌊((([10, 20, 30, 40] : List ℚ).length : ℚ) - 1) * (1 / 2)⌋ : ℚ))) :=
  ⟨by norm_num, by norm_num, by norm_num,
    quantile_spec.2.2.1 [10, 20, 30, 40] (1 / 2) (by norm_num) (by norm_num) (by norm_num)⟩


/-- The normalization of `niceRec` under both implementations. -/
def entryNice : LogEntry :=
  { timestamp := 1704067200, level := "", event_type := "", method := some "GET",
    path := some "/a", status_code := some 200, duration_ms := some ((5 : Int) : ℚ),
    user_id := none, is_authenticated := some true, error_type := none,
    error_message := none }

/-- C2 counterexample: on a record carrying literal `false` at `authenticated`
and `true` at the nested `auth.is_authenticated`, both normalize
implementations resolve authentication to some true — the falsy `false` falls
through the `or` chain — not to false as the claim requires. -/
theorem normalize_chain_counterexample :
    (LogParser.normalize authRecC2).map LogEntry.is_authenticated ≠ some (some false)
  ∧ (LogParser.normalize authRecC2).map LogEntry.is_authenticated = some (some true)
  ∧ (mainNormalize authRecC2).map LogEntry.is_authenticated = some (some true) :=
  ⟨by decide, by decide, by decide⟩

/-- C2 (amended): field resolution tries each fallback chain in the stated
order but short-circuits on the first candidate holding a truthy value
(Python `or` semantics), not on the first present key; main.py additionally
keeps a present-but-falsy value at the first candidate of the status,
duration and authentication chains via an explicit `is None` check. Hence
`authenticated: false` followed by `auth.is_authenticated: true` resolves to
true in both implementations, and `status_code: 0` falls through to `status`
in parser.py's normalize though not in main.py's. -/
theorem normalize_chain_spec :
    (∀ (d : List (String × Json)) (e : LogEntry), LogParser.normalize d = some e →
      e.method = strOrNone (resolveChain d methodChain)
    ∧ e.path = strOrNone (resolveChain d pathChain)
    ∧ e.status_code = safe_int (resolveChain d statusChain)
    ∧ e.duration_ms = safe_float (resolveChain d durationChain)
    ∧ e.is_authenticated = authOfP (resolveChain d authChain)
    ∧ e.user_id = safe_int (resolveChain d userChain))
  ∧ (LogParser.normalize authRecC2).map LogEntry.is_authenticated = some (some true)
  ∧ (LogParser.normalize statusRec07).map LogEntry.status_code = some (some 7)
  ∧ (mainNormalize statusRec07).map LogEntry.status_code = some (some 0) := by
  refine ⟨?_, by decide, by decide, by decide⟩
  intro d e h
  unfold LogParser.normalize at h
  cases hts : parse_ts (jor (dGet d "timestamp") (jor (dGet d "time")
      (get_nested d ["meta", "timestamp"]))) with
  | none =>
    rw [hts] at h
    cases h
  | some ts =>
    rw [hts] at h
    injection h with h2
    subst h2
    exact ⟨rfl, rfl, rfl, rfl, rfl, rfl⟩

/-- C2 witness: the chain characterization applied to the concrete record
niceRec, whose normalization is entryNice. -/
theorem normalize_chain_spec_witness :
    LogParser.normalize niceRec = some entryNice ∧
    (entryNice.method = strOrNone (resolveChain niceRec methodChain)
    ∧ entryNice.path = strOrNone (resolveChain niceRec pathChain)
    ∧ entryNice.status_code = safe_int (resolveChain niceRec statusChain)
    ∧ entryNice.duration_ms = safe_float (resolveChain niceRec durationChain)
    ∧ entryNice.is_authenticated = authOfP (resolveChain niceRec authChain)
    ∧ entryNice.user_id = safe_int (resolveChain niceRec userChain)) :=
  ⟨rfl, normalize_chain_spec.1 niceRec entryNice rfl⟩

/-- C10 counterexample: on a record with 0 at `status_code` (and no other
status key), main.py's normalize keeps status 0 while parser.py's falls
through the whole chain and reports no status; the two implementations
return different results. -/
theorem normalize_equiv_counterexample :
    mainNormalize statusRec0 ≠ LogParser.normalize statusRec0
  ∧ (mainNormalize statusRec0).map LogEntry.status_code = some (some 0)
  ∧ (LogParser.normalize statusRec0).map LogEntry.status_code = some none :=
  ⟨by decide, by decide, by decide⟩

/-- C10 (amended): the two normalize implementations return equal results on
every raw record whose values at the keys status_code, duration_ms and
is_authenticated are each absent, null, or truthy; they diverge exactly on a
present falsy value (0, false, "", empty containers) at one of those keys,
which main.py keeps and parser.py falls through. -/
theorem normalize_equiv_spec :
    ∀ d : List (String × Json),
      keyNice d "status_code" = true → keyNice d "duration_ms" = true →
      keyNice d "is_authenticated" = true →
      mainNormalize d = LogParser.normalize d := by
  have hsel : ∀ (v tail : Json), (v.isNull || v.truthy) = true →
      (if v.isNull = true then tail else v) = jor v tail := by
    intro v tail hv
    cases hn : v.isNull with
    | false =>
      have ht : v.truthy = true := by
        rw [hn] at hv
        simpa using hv
      rw [if_neg (by simp [hn]), jor, if_pos ht]
    | true =>
      have hnull : v = Json.null := by
        cases v <;> simp_all [Json.isNull]
      subst hnull
      rw [if_pos rfl, jor]
      simp [Json.truthy]
  have hco : ∀ w, coerceAuthMain w = coerceAuthP w := by
    intro w
    unfold coerceAuthMain coerceAuthP
    by_cases hT : lowerStr (String.mk (trimChars (pyStr w).data)) ∈ authTrueStrs
    · simp [hT, List.mem_append]
    · by_cases hF : lowerStr (String.mk (trimChars (pyStr w).data)) ∈ authFalseStrs
      · simp [hT, hF, List.mem_append]
      · simp [hT, hF, List.mem_append]
  have hauth : ∀ v, authOfMain v = authOfP v := by
    intro v
    unfold authOfMain authOfP
    cases v <;> simp [hco]
  intro d h1 h2 h3
  unfold keyNice at h1 h2 h3
  unfold mainNormalize LogParser.normalize
  cases hts : parse_ts (jor (dGet d "timestamp") (jor (dGet d "time")
      (get_nested d ["meta", "timestamp"]))) with
  | none => rfl
  | some ts =>
    simp only [hsel _ _ h1, hsel _ _ h2, hsel _ _ h3, hauth]

/-- C10 witness: on niceRec (truthy status, duration and auth values) the two
implementations produce the same entry. -/
theorem normalize_equiv_spec_witness :
    keyNice niceRec "status_code" = true ∧ keyNice niceRec "duration_ms" = true ∧
    keyNice niceRec "is_authenticated" = true ∧
    mainNormalize niceRec = LogParser.normalize niceRec :=
  ⟨by decide, by decide, by decide,
    normalize_equiv_spec niceRec (by decide) (by decide) (by decide)⟩

/-- Reflexivity of the lexicographic comparison. -/
theorem lexLe_refl : ∀ a : List Char, lexLe a a = true := by
  intro a
  induction a with
  | nil => rfl
  | cons c cs ih => simp [lexLe, ih]

/-- Totality of the lexicographic comparison. -/
theorem lexLe_total : ∀ a b : List Char, lexLe a b = true ∨ lexLe b a = true := by
  intro a
  induction a with
  | nil => intro b; left; rfl
  | cons c cs ih =>
    intro b
    cases b with
    | nil => right; rfl
    | cons d ds =>
      by_cases h1 : c.toNat < d.toNat
      · left; simp [lexLe, h1]
      · by_cases h2 : d.toNat < c.toNat
        · right; simp [lexLe, h2]
        · rcases ih ds with h | h
          · left; simp [lexLe, h1, h2, h]
          · right; simp [lexLe, h1, h2, h]

/-- Transitivity of the lexicographic comparison. -/
theorem lexLe_trans : ∀ a b c : List Char,
    lexLe a b = true → lexLe b c = true → lexLe a c = true := by
  intro a
  induction a with
  | nil => intro b c _ _; rfl
  | cons x xs ih =>
    intro b c hab hbc
    cases b with
    | nil => simp [lexLe] at hab
    | cons y ys =>
      cases c with
      | nil => simp [lexLe] at hbc
      | cons z zs =>
        simp only [lexLe] at hab hbc ⊢
        by_cases hxy : x.toNat < y.toNat
        · by_cases hyz : y.toNat < z.toNat
          · rw [if_pos (by omega)]
          · rw [if_neg hyz] at hbc
            by_cases hzy : z.toNat < y.toNat
            · rw [if_pos hzy] at hbc
              cases hbc
            · rw [if_neg hzy] at hbc
              rw [if_pos (by omega)]
        · rw [if_neg hxy] at hab
          by_cases hyx : y.toNat < x.toNat
          · rw [if_pos hyx] at hab
            cases hab
          · rw [if_neg hyx] at hab
            by_cases hyz : y.toNat < z.toNat
            · rw [if_pos (by omega)]
            · rw [if_neg hyz] at hbc
              by_cases hzy : z.toNat < y.toNat
              · rw [if_pos hzy] at hbc
                cases hbc
              · rw [if_neg hzy] at hbc
                rw [if_neg (by omega), if_neg (by omega)]
                exact ih ys zs hab hbc

/-- Antisymmetry of the lexicographic comparison. -/
theorem lexLe_antisymm : ∀ a b : List Char,
    lexLe a b = true → lexLe b a = true → a = b := by
  intro a
  induction a with
  | nil =>
    intro b _ hba
    cases b with
    | nil => rfl
    | cons d ds => simp [lexLe] at hba
  | cons c cs ih =>
    intro b hab hba
    cases b with
    | nil => simp [lexLe] at hab
    | cons d ds =>
      simp only [lexLe] at hab hba
      by_cases h1 : c.toNat < d.toNat
      · rw [if_neg (by omega), if_pos (by omega)] at hba
        cases hba
      · by_cases h2 : d.toNat < c.toNat
        · rw [if_neg h1, if_pos h2] at hab
          cases hab
        · rw [if_neg h1, if_neg h2] at hab
          rw [if_neg (by omega), if_neg (by omega)] at hba
          have hcd : c = d := by
            have hv : c.toNat = d.toNat := by omega
            exact Char.eq_of_val_eq (by
              apply UInt32.toNat.inj
              exact hv)
          rw [hcd, ih ds hab hba]

/-- strLe is total. -/
theorem strLe_total (s t : String) : strLe s t = true ∨ strLe t s = true :=
  lexLe_total s.data t.data

/-- strLe is transitive. -/
theorem strLe_trans {s t u : String} (h1 : strLe s t = true) (h2 : strLe t u = true) :
    strLe s u = true :=
  lexLe_trans s.data t.data u.data h1 h2

/-- strLe is antisymmetric. -/
theorem strLe_antisymm {s t : String} (h1 : strLe s t = true) (h2 : strLe t s = true) :
    s = t := by
  have h := lexLe_antisymm s.data t.data h1 h2
  cases s
  cases t
  cases h
  rfl

/-- strLt from strLe and disequality. -/
theorem strLt_of_strLe_ne {s t : String} (h1 : strLe s t = true) (h2 : s ≠ t) :
    strLt s t = true := by
  unfold strLt
  simp [h1, h2]

/-- strLt is asymmetric. -/
theorem strLt_asymm {s t : String} (h1 : strLt s t = true) (h2 : strLt t s = true) : False := by
  unfold strLt at h1 h2
  simp only [Bool.and_eq_true, Bool.not_eq_true', beq_eq_false_iff_ne, ne_eq] at h1 h2
  exact h1.2 (strLe_antisymm h1.1 h2.1)

/-- Lookup at the head key. -/
theorem lookup_cons_self {β : Type} (k : String) (v : β) (rest : List (String × β)) :
    ((k, v) :: rest).lookup k = some v := by
  simp [List.lookup]

/-- Lookup skips a mismatched head key. -/
theorem lookup_cons_ne {β : Type} {k k2 : String} (v : β) (rest : List (String × β))
    (h : k2 ≠ k) : ((k, v) :: rest).lookup k2 = rest.lookup k2 := by
  have hb : (k2 == k) = false := by simp [h]
  simp [List.lookup, hb]

/-- Lookup misses exactly the absent keys. -/
theorem lookup_eq_none_iff {β : Type} (m : List (String × β)) (k : String) :
    m.lookup k = none ↔ k ∉ m.map Prod.fst := by
  induction m with
  | nil => simp [List.lookup]
  | cons kv rest ih =>
    obtain ⟨k2, v⟩ := kv
    by_cases h : k = k2
    · subst h
      simp [lookup_cons_self]
    · rw [lookup_cons_ne v rest h]
      simp [ih, h]

/-- A present key has a `some` lookup. -/
theorem lookup_isSome_iff {β : Type} (m : List (String × β)) (k : String) :
    (m.lookup k).isSome = true ↔ k ∈ m.map Prod.fst := by
  have h := lookup_eq_none_iff m k
  cases hl : m.lookup k with
  | none =>
    rw [hl] at h
    simp [h.mp rfl]
  | some v =>
    rw [hl] at h
    simp only [Option.isSome_some, true_iff]
    by_contra hmem
    cases (h.mpr hmem)

/-- Lookup after `bump`. -/
theorem bump_lookup (m : List (String × Nat)) (k k2 : String) :
    (bump m k).lookup k2 =
      if k2 = k then some (((m.lookup k).getD 0) + 1) else m.lookup k2 := by
  induction m with
  | nil =>
    by_cases h : k2 = k
    · subst h
      simp [bump, lookup_cons_self, List.lookup]
    · rw [show bump [] k = [(k, 1)] from rfl, lookup_cons_ne 1 [] h, if_neg h]
  | cons kv rest ih =>
    obtain ⟨k3, v⟩ := kv
    by_cases h3 : k3 = k
    · subst h3
      have hstep : bump ((k3, v) :: rest) k3 = (k3, v + 1) :: rest := by
        simp [bump]
      rw [hstep]
      by_cases h : k2 = k3
      · subst h
        rw [lookup_cons_self, lookup_cons_self, if_pos rfl]
        simp
      · rw [lookup_cons_ne _ _ h, if_neg h, lookup_cons_ne _ _ h]
    · have hstep : bump ((k3, v) :: rest) k = (k3, v) :: bump rest k := by
        simp [bump, h3]
      have hkk3 : k ≠ k3 := fun h2 => h3 h2.symm
      rw [hstep, lookup_cons_ne v rest hkk3]
      by_cases h : k2 = k3
      · subst h
        have hk2k : k2 ≠ k := h3
        rw [lookup_cons_self, if_neg hk2k, lookup_cons_self]
      · rw [lookup_cons_ne _ _ h, lookup_cons_ne v rest h, ih]

/-- Keys after `bump`: unchanged when the key is present, appended otherwise. -/
theorem bump_keys (m : List (String × Nat)) (k : String) :
    (bump m k).map Prod.fst =
      if (m.lookup k).isSome then m.map Prod.fst else m.map Prod.fst ++ [k] := by
  induction m with
  | nil => simp [bump, List.lookup]
  | cons kv rest ih =>
    obtain ⟨k3, v⟩ := kv
    by_cases h3 : k3 = k
    · subst h3
      have hstep : bump ((k3, v) :: rest) k3 = (k3, v + 1) :: rest := by
        simp [bump]
      rw [hstep, lookup_cons_self]
      simp
    · have hstep : bump ((k3, v) :: rest) k = (k3, v) :: bump rest k := by
        simp [bump, h3]
      have hkk3 : k ≠ k3 := fun h2 => h3 h2.symm
      rw [hstep, lookup_cons_ne v rest hkk3]
      simp only [List.map_cons, ih]
      by_cases h2 : (rest.lookup k).isSome <;> simp [h2]

/-- Lookup (with default) is unchanged by `setdefault _ _ 0`. -/
theorem setdefault_lookupD (m : List (String × Nat)) (k k2 : String) :
    ((setdefault m k 0).lookup k2).getD 0 = (m.lookup k2).getD 0 := by
  unfold setdefault
  by_cases h : (m.lookup k).isSome
  · rw [if_pos h]
  · rw [if_neg h]
    induction m with
    | nil =>
      by_cases h2 : k2 = k
      · subst h2
        simp [lookup_cons_self, List.lookup]
      · simp only [List.nil_append]
        rw [lookup_cons_ne 0 [] h2]
    | cons kv rest ih =>
      obtain ⟨k3, v⟩ := kv
      simp only [List.cons_append]
      by_cases h2 : k2 = k3
      · subst h2
        rw [lookup_cons_self, lookup_cons_self]
      · rw [lookup_cons_ne _ _ h2, lookup_cons_ne v rest h2]
        apply ih
        intro hsome
        apply h
        have hneq : k ≠ k3 := by
          intro he
          subst he
          rw [show ((k, v) :: rest).lookup k = some v from lookup_cons_self k v rest] at h
          simp at h
        rw [lookup_cons_ne v rest hneq]
        exact hsome

/-- Keys after `setdefault _ _ 0`. -/
theorem setdefault_keys (m : List (String × Nat)) (k : String) :
    (setdefault m k 0).map Prod.fst =
      if (m.lookup k).isSome then m.map Prod.fst else m.map Prod.fst ++ [k] := by
  unfold setdefault
  by_cases h : (m.lookup k).isSome <;> simp [h]

/-- The local hour is a valid hour-of-day. -/
theorem localHour_lt (off t : Int) : localHour off t < 24 := by
  unfold localHour
  have h1 : 0 ≤ ((t + off).fdiv 3600).emod 24 := Int.emod_nonneg _ (by norm_num)
  have h2 : ((t + off).fdiv 3600).emod 24 < 24 := Int.emod_lt_of_pos _ (by norm_num)
  omega

/-- `pad2` is injective on hours-of-day. -/
theorem pad2_inj24 : ∀ i, i < 24 → ∀ j, j < 24 → pad2 i = pad2 j → i = j := by decide

/-- The hour labels are distinct. -/
theorem hourLabels_nodup : hourLabels.Nodup := by decide

/-- Each hour-of-day labels into the 24 labels. -/
theorem pad2_mem_hourLabels {i : Nat} (h : i < 24) : pad2 i ∈ hourLabels :=
  List.mem_map.mpr ⟨i, List.mem_range.mpr h, rfl⟩

/-- Counting invariant of the bump fold in `compute_traffic`. -/
theorem traffic_bumpfold_lookupD (off : Int) :
    ∀ (reqs : List LogEntry) (m : List (String × Nat)) (i : Nat), i < 24 →
    (((reqs.foldl (fun m e => bump m (pad2 (localHour off e.timestamp))) m).lookup
        (pad2 i)).getD 0)
      = ((m.lookup (pad2 i)).getD 0)
        + reqs.countP (fun e => decide (localHour off e.timestamp = i)) := by
  intro reqs
  induction reqs with
  | nil =>
    intro m i hi
    simp
  | cons e rest ih =>
    intro m i hi
    simp only [List.foldl_cons, List.countP_cons]
    rw [ih _ i hi, bump_lookup]
    by_cases he : localHour off e.timestamp = i
    · rw [he]
      simp
      omega
    · rw [if_neg (fun hp => he ((pad2_inj24 i hi _ (localHour_lt off e.timestamp) hp).symm))]
      simp [he]

/-- Key-set invariant of the bump fold in `compute_traffic`. -/
theorem traffic_bumpfold_keys (off : Int) :
    ∀ (reqs : List LogEntry) (m : List (String × Nat)),
      (∀ k ∈ m.map Prod.fst, k ∈ hourLabels) → (m.map Prod.fst).Nodup →
      (∀ k ∈ (reqs.foldl (fun m e => bump m (pad2 (localHour off e.timestamp))) m).map
          Prod.fst, k ∈ hourLabels)
      ∧ ((reqs.foldl (fun m e => bump m (pad2 (localHour off e.timestamp))) m).map
          Prod.fst).Nodup := by
  intro reqs
  induction reqs with
  | nil => intro m h1 h2; exact ⟨h1, h2⟩
  | cons e rest ih =>
    intro m h1 h2
    simp only [List.foldl_cons]
    apply ih
    · intro k hk
      rw [bump_keys] at hk
      by_cases hs : (m.lookup (pad2 (localHour off e.timestamp))).isSome
      · rw [if_pos hs] at hk
        exact h1 k hk
      · rw [if_neg hs] at hk
        rcases List.mem_append.mp hk with h | h
        · exact h1 k h
        · rw [List.mem_singleton.mp h]
          exact pad2_mem_hourLabels (localHour_lt off e.timestamp)
    · rw [bump_keys]
      by_cases hs : (m.lookup (pad2 (localHour off e.timestamp))).isSome
      · rw [if_pos hs]
        exact h2
      · rw [if_neg hs]
        apply List.Nodup.append h2 (List.nodup_singleton _)
        rw [List.disjoint_singleton]
        intro hmem
        rw [← lookup_isSome_iff] at hmem
        exact hs hmem

/-- Lookup (with default) is unchanged by the setdefault fold. -/
theorem traffic_setfold_lookupD :
    ∀ (ks : List Nat) (m : List (String × Nat)) (k2 : String),
      (((ks.foldl (fun m i => setdefault m (pad2 i) 0) m).lookup k2).getD 0)
        = (m.lookup k2).getD 0 := by
  intro ks
  induction ks with
  | nil => intro m k2; rfl
  | cons i rest ih =>
    intro m k2
    simp only [List.foldl_cons]
    rw [ih, setdefault_lookupD]

/-- Key-set behaviour of the setdefault fold. -/
theorem traffic_setfold_keys :
    ∀ (ks : List Nat) (m : List (String × Nat)), (m.map Prod.fst).Nodup →
      ((ks.foldl (fun m i => setdefault m (pad2 i) 0) m).map Prod.fst).Nodup
    ∧ (∀ k, k ∈ (ks.foldl (fun m i => setdefault m (pad2 i) 0) m).map Prod.fst ↔
        (k ∈ m.map Prod.fst ∨ k ∈ ks.map pad2)) := by
  intro ks
  induction ks with
  | nil =>
    intro m h
    exact ⟨h, fun k => by simp⟩
  | cons i rest ih =>
    intro m h
    simp only [List.foldl_cons]
    by_cases hs : (m.lookup (pad2 i)).isSome
    · have hunch : setdefault m (pad2 i) 0 = m := by
        unfold setdefault
        rw [if_pos hs]
      rw [hunch]
      obtain ⟨hnd, hiff⟩ := ih m h
      refine ⟨hnd, fun k => ?_⟩
      rw [hiff k]
      have hmemi : k = pad2 i → k ∈ m.map Prod.fst := by
        intro h1
        subst h1
        exact (lookup_isSome_iff m _).mp hs
      simp only [List.map_cons, List.mem_cons]
      tauto
    · have happ : setdefault m (pad2 i) 0 = m ++ [(pad2 i, 0)] := by
        unfold setdefault
        rw [if_neg hs]
      rw [happ]
      have hnodup2 : ((m ++ [(pad2 i, 0)]).map Prod.fst).Nodup := by
        rw [List.map_append]
        apply List.Nodup.append h (List.nodup_singleton _)
        simp only [List.map_cons, List.map_nil, List.disjoint_singleton]
        intro hmem
        rw [← lookup_isSome_iff] at hmem
        exact hs hmem
      obtain ⟨hnd, hiff⟩ := ih (m ++ [(pad2 i, 0)]) hnodup2
      refine ⟨hnd, fun k => ?_⟩
      rw [hiff k]
      simp only [List.map_append, List.mem_append, List.map_cons, List.map_nil,
        List.mem_singleton, List.mem_cons, List.not_mem_nil]
      tauto

/-- An association list with distinct keys is its key list paired with its
lookups. -/
theorem assoc_eq_keys_map (m : List (String × Nat)) (h : (m.map Prod.fst).Nodup) :
    m = (m.map Prod.fst).map (fun k => (k, (m.lookup k).getD 0)) := by
  induction m with
  | nil => rfl
  | cons kv rest ih =>
    obtain ⟨k, v⟩ := kv
    simp only [List.map_cons] at h ⊢
    have hnd := List.nodup_cons.mp h
    have hcongr : ∀ k2 ∈ rest.map Prod.fst,
        (fun k2 => (k2, ((((k, v) :: rest).lookup k2).getD 0))) k2 =
        (fun k2 => (k2, ((rest.lookup k2).getD 0))) k2 := by
      intro k2 hk2
      have hne : k2 ≠ k := fun he => hnd.1 (he ▸ hk2)
      simp only [lookup_cons_ne v rest hne]
    rw [lookup_cons_self]
    simp only [Option.getD_some]
    rw [List.map_congr_left hcongr]
    exact congrArg _ (ih hnd.2)

/-- C8: the hourly traffic distribution counts request-like events grouped by
the 2-digit local-time hour of day of their timestamps (local conversion
modelled as the fixed offset `off`), and its result is exactly the 24 keys
"00".."23" in ascending string order, zero counts included. -/
theorem compute_traffic_spec (off : Int) (entries : List LogEntry) :
    compute_traffic off entries =
      (List.range 24).map (fun i =>
        (pad2 i, (entries.filter (fun e => LogParser.is_request e)).countP
          (fun e => decide (localHour off e.timestamp = i))))
  ∧ (compute_traffic off entries).map Prod.fst = hourLabels
  ∧ ((compute_traffic off entries).map Prod.fst).Pairwise (fun a b => strLt a b = true) := by
  set reqs := entries.filter (fun e => LogParser.is_request e) with hreqs
  set canonical := (List.range 24).map (fun i =>
    (pad2 i, reqs.countP (fun e => decide (localHour off e.timestamp = i)))) with hcanonical
  set m1 := reqs.foldl (fun m e => bump m (pad2 (localHour off e.timestamp))) [] with hm1
  set m2 := (List.range 24).foldl (fun m i => setdefault m (pad2 i) 0) m1 with hm2
  have hct : compute_traffic off entries =
      List.insertionSort (fun a b => strLe a.1 b.1 = true) m2 := rfl
  have hm1keys := traffic_bumpfold_keys off reqs [] (by simp) (by simp)
  have hm2keys := traffic_setfold_keys (List.range 24) m1 hm1keys.2
  have hm2nodup : (m2.map Prod.fst).Nodup := hm2keys.1
  have hm2mem : ∀ k, k ∈ m2.map Prod.fst ↔ k ∈ hourLabels := by
    intro k
    rw [hm2keys.2 k]
    constructor
    · rintro (h | h)
      · exact hm1keys.1 k h
      · exact h
    · intro h
      exact Or.inr h
  have hm2look : ∀ i, i < 24 → ((m2.lookup (pad2 i)).getD 0) =
      reqs.countP (fun e => decide (localHour off e.timestamp = i)) := by
    intro i hi
    rw [hm2, traffic_setfold_lookupD, hm1]
    have h := traffic_bumpfold_lookupD off reqs [] i hi
    simpa using h
  have hperm_keys : (m2.map Prod.fst).Perm hourLabels :=
    (List.perm_ext_iff_of_nodup hm2nodup hourLabels_nodup).mpr hm2mem
  have hpermpairs : m2.Perm canonical := by
    rw [assoc_eq_keys_map m2 hm2nodup]
    have h1 := hperm_keys.map (fun k => (k, (m2.lookup k).getD 0))
    apply h1.trans
    apply List.Perm.of_eq
    show (((List.range 24).map pad2).map (fun k => (k, (m2.lookup k).getD 0))) = canonical
    rw [List.map_map, hcanonical]
    apply List.map_congr_left
    intro i hi
    have hlt : i < 24 := List.mem_range.mp hi
    simp only [Function.comp_apply]
    rw [hm2look i hlt]
  haveI : IsTotal (String × Nat) (fun a b => strLe a.1 b.1 = true) :=
    ⟨fun a b => strLe_total a.1 b.1⟩
  haveI : IsTrans (String × Nat) (fun a b => strLe a.1 b.1 = true) :=
    ⟨fun a b c h1 h2 => strLe_trans h1 h2⟩
  haveI : IsAntisymm (String × Nat) (fun a b => strLt a.1 b.1 = true) :=
    ⟨fun a b h1 h2 => (strLt_asymm h1 h2).elim⟩
  have hsorted : (List.insertionSort (fun a b => strLe a.1 b.1 = true) m2).Pairwise
      (fun a b => strLe a.1 b.1 = true) :=
    List.sorted_insertionSort _ m2
  have hsperm : (List.insertionSort (fun a b => strLe a.1 b.1 = true) m2).Perm m2 :=
    List.perm_insertionSort _ m2
  have hskeys_nodup :
      ((List.insertionSort (fun a b => strLe a.1 b.1 = true) m2).map Prod.fst).Nodup :=
    ((hsperm.map Prod.fst).nodup_iff).mpr hm2nodup
  have hstrict : (List.insertionSort (fun a b => strLe a.1 b.1 = true) m2).Pairwise
      (fun a b => strLt a.1 b.1 = true) := by
    have hne : (List.insertionSort (fun a b => strLe a.1 b.1 = true) m2).Pairwise
        (fun a b => a.1 ≠ b.1) := List.pairwise_map.mp hskeys_nodup
    exact (hsorted.and hne).imp (fun h => strLt_of_strLe_ne h.1 h.2)
  have hcstrict : canonical.Pairwise (fun a b => strLt a.1 b.1 = true) := by
    rw [hcanonical, List.pairwise_map]
    have hdec : (List.range 24).Pairwise (fun i j => strLt (pad2 i) (pad2 j) = true) := by
      decide
    exact hdec
  have heq : List.insertionSort (fun a b => strLe a.1 b.1 = true) m2 = canonical :=
    List.eq_of_perm_of_sorted (hsperm.trans hpermpairs) hstrict hcstrict
  have hmain : compute_traffic off entries = canonical := by rw [hct, heq]
  refine ⟨hmain, ?_, ?_⟩
  · rw [hmain, hcanonical, List.map_map]
    rfl
  · rw [hmain]
    exact List.pairwise_map.mpr hcstrict

/-- Stability of insertion sort on a key class: filtering the sorted list by
a class of pairwise-related elements recovers the original filter, i.e. ties
retain their original (discovery) order. -/
theorem insertionSort_filter_class {α : Type} (r : α → α → Prop) [DecidableRel r]
    [IsTotal α r] [IsTrans α r]
    (p : α → Bool) (hp : ∀ a b, p a = true → p b = true → r a b)
    (l : List α) : (l.insertionSort r).filter p = l.filter p := by
  have hcp : ∀ x ∈ l.filter p, p x = true := fun x hx => (List.mem_filter.mp hx).2
  have hpair : (l.filter p).Pairwise r := by
    apply List.pairwise_of_forall_mem_list
    intro a ha b hb
    exact hp a b (hcp a ha) (hcp b hb)
  have hsub : (l.filter p).Sublist (l.insertionSort r) :=
    List.sublist_insertionSort hpair (List.filter_sublist l)
  have hsub2 : (l.filter p).Sublist ((l.insertionSort r).filter p) := by
    have h1 := hsub.filter p
    simpa [List.filter_filter, Bool.and_self] using h1
  have hlen : (l.filter p).length = ((l.insertionSort r).filter p).length := by
    rw [← List.countP_eq_length_filter, ← List.countP_eq_length_filter]
    exact ((List.perm_insertionSort r l).countP_eq p).symm
  exact (hsub2.eq_of_length hlen).symm

/-- discoveryKeys of one appended element. -/
theorem discoveryKeys_append_one (ps : List String) (p : String) :
    discoveryKeys (ps ++ [p]) =
      if p ∈ discoveryKeys ps then discoveryKeys ps else discoveryKeys ps ++ [p] := by
  unfold discoveryKeys
  rw [List.foldl_append]
  rfl

/-- discoveryKeys produces distinct keys. -/
theorem discoveryKeys_nodup (ps : List String) : (discoveryKeys ps).Nodup := by
  suffices h : ∀ acc : List String, acc.Nodup →
      (ps.foldl (fun acc p => if p ∈ acc then acc else acc ++ [p]) acc).Nodup by
    exact h [] List.nodup_nil
  induction ps with
  | nil => intro acc h; exact h
  | cons q qs ih =>
    intro acc h
    simp only [List.foldl_cons]
    apply ih
    by_cases hq : q ∈ acc
    · rw [if_pos hq]
      exact h
    · rw [if_neg hq]
      exact List.Nodup.append h (List.nodup_singleton _) (by rwa [List.disjoint_singleton])

/-- discoveryKeys has the same members as its input. -/
theorem discoveryKeys_mem (ps : List String) (k : String) :
    k ∈ discoveryKeys ps ↔ k ∈ ps := by
  suffices h : ∀ acc, k ∈ ps.foldl (fun acc p => if p ∈ acc then acc else acc ++ [p]) acc ↔
      (k ∈ acc ∨ k ∈ ps) by
    have h0 := h []
    simpa using h0
  induction ps with
  | nil => intro acc; simp
  | cons q qs ih =>
    intro acc
    simp only [List.foldl_cons]
    rw [ih]
    by_cases hq : q ∈ acc
    · rw [if_pos hq]
      simp only [List.mem_cons]
      have hkq : k = q → k ∈ acc := fun h1 => h1 ▸ hq
      tauto
    · rw [if_neg hq]
      simp only [List.mem_append, List.mem_singleton, List.mem_cons]
      tauto

/-- addToBucket on a keyed map with distinct keys: append to the matching
bucket, or open a new bucket at the end. -/
theorem addToBucket_map (ks : List String) (f : String → List LogEntry) (p : String)
    (e : LogEntry) (hnd : ks.Nodup) :
    addToBucket (ks.map (fun k => (k, f k))) p e =
      if p ∈ ks then ks.map (fun k => (k, if k = p then f k ++ [e] else f k))
      else ks.map (fun k => (k, f k)) ++ [(p, [e])] := by
  induction ks with
  | nil => simp [addToBucket]
  | cons k rest ih =>
    have hnd2 := List.nodup_cons.mp hnd
    simp only [List.map_cons]
    by_cases hk : k = p
    · subst hk
      have hstep : addToBucket ((k, f k) :: rest.map (fun k2 => (k2, f k2))) k e =
          (k, f k ++ [e]) :: rest.map (fun k2 => (k2, f k2)) := by
        simp [addToBucket]
      rw [hstep, if_pos (List.mem_cons_self k rest)]
      simp only [if_pos rfl, List.map_cons]
      congr 1
      apply List.map_congr_left
      intro k2 hk2
      have hne : k2 ≠ k := fun he => hnd2.1 (he ▸ hk2)
      rw [if_neg hne]
    · have hstep : addToBucket ((k, f k) :: rest.map (fun k2 => (k2, f k2))) p e =
          (k, f k) :: addToBucket (rest.map (fun k2 => (k2, f k2))) p e := by
        simp [addToBucket, hk]
      rw [hstep, ih hnd2.2]
      by_cases hmem : p ∈ rest
      · rw [if_pos hmem, if_pos (List.mem_cons.mpr (Or.inr hmem)), if_neg hk]
      · rw [if_neg hmem,
          if_neg (fun h2 => (List.mem_cons.mp h2).elim (fun h3 => hk h3.symm) hmem)]
        simp

/-- The bucket fold of compute_endpoints produces the discovery-ordered
exact-path grouping. -/
theorem endpointBuckets_eq (entries : List LogEntry) :
    endpointBuckets entries =
      (discoveryKeys ((endpointRequests entries).map pathD)).map
        (fun p => (p, (endpointRequests entries).filter (fun e => pathD e == p))) := by
  unfold endpointBuckets
  suffices h : ∀ (l pref : List LogEntry),
      l.foldl (fun m e => addToBucket m (pathD e) e)
        ((discoveryKeys (pref.map pathD)).map
          (fun p => (p, pref.filter (fun e => pathD e == p)))) =
      (discoveryKeys ((pref ++ l).map pathD)).map
        (fun p => (p, (pref ++ l).filter (fun e => pathD e == p))) by
    have h0 := h (endpointRequests entries) []
    simpa using h0
  intro l
  induction l with
  | nil =>
    intro pref
    simp
  | cons e rest ih =>
    intro pref
    simp only [List.foldl_cons]
    have hstep : addToBucket ((discoveryKeys (pref.map pathD)).map
        (fun p => (p, pref.filter (fun e2 => pathD e2 == p)))) (pathD e) e =
        (discoveryKeys ((pref ++ [e]).map pathD)).map
          (fun p => (p, (pref ++ [e]).filter (fun e2 => pathD e2 == p))) := by
      rw [addToBucket_map _ _ _ _ (discoveryKeys_nodup _), List.map_append,
        List.map_singleton, discoveryKeys_append_one]
      by_cases hmem : pathD e ∈ discoveryKeys (pref.map pathD)
      · rw [if_pos hmem, if_pos hmem]
        apply List.map_congr_left
        intro k hk
        rw [List.filter_append, List.filter_singleton]
        by_cases hkp : k = pathD e
        · subst hkp
          simp
        · have hbe : (pathD e == k) = false := by simp [Ne.symm hkp]
          simp [hkp, hbe]
      · rw [if_neg hmem, if_neg hmem, List.map_append, List.map_singleton]
        congr 1
        · apply List.map_congr_left
          intro k hk
          have hkp : k ≠ pathD e := fun he => hmem (he ▸ hk)
          have hbe : (pathD e == k) = false := by simp [Ne.symm hkp]
          rw [List.filter_append, List.filter_singleton]
          simp [hbe]
        · have hnone : pref.filter (fun e2 => pathD e2 == pathD e) = [] := by
            rw [List.filter_eq_nil_iff]
            intro x hx
            simp only [beq_iff_eq]
            intro hpe
            apply hmem
            rw [discoveryKeys_mem]
            exact List.mem_map.mpr ⟨x, hx, hpe⟩
          rw [List.filter_append, List.filter_singleton, hnone]
          simp
    rw [hstep, ih (pref ++ [e])]
    simp

/-- The grouping conjunct: the raw stats list equals the specification-side
discovery-ordered grouping. -/
theorem endpointStatsRaw_eq_spec (entries : List LogEntry) :
    endpointStatsRaw entries = specEndpointStats entries := by
  unfold endpointStatsRaw specEndpointStats
  rw [endpointBuckets_eq, List.map_map]
  rfl

/-- C9: per-endpoint statistics group the request-like events with a known
path by exact path equality, in discovery order; the result is the stable
sort of those group stats by the chosen key (count or p95), descending by
default (ascending only for order = "asc"), with ties retaining discovery
order, truncated to the first `limit` entries. -/
theorem compute_endpoints_spec (entries : List LogEntry) (limit : Nat)
    (sort_by order : String) :
    endpointStatsRaw entries = specEndpointStats entries
  ∧ compute_endpoints entries limit sort_by order = (epSorted entries sort_by order).take limit
  ∧ (epSorted entries sort_by order).Perm (endpointStatsRaw entries)
  ∧ (if lowerStr order = "asc" then
      (epSorted entries sort_by order).Pairwise
        (fun a b => epKey sort_by a ≤ epKey sort_by b)
     else
      (epSorted entries sort_by order).Pairwise
        (fun a b => epKey sort_by b ≤ epKey sort_by a))
  ∧ (∀ c : ℚ,
      (epSorted entries sort_by order).filter (fun s => decide (epKey sort_by s = c)) =
        (endpointStatsRaw entries).filter (fun s => decide (epKey sort_by s = c))) := by
  haveI h1 : IsTotal EndpointStat (fun a b => epKey sort_by a ≤ epKey sort_by b) :=
    ⟨fun a b => le_total _ _⟩
  haveI h2 : IsTrans EndpointStat (fun a b => epKey sort_by a ≤ epKey sort_by b) :=
    ⟨fun a b c hab hbc => le_trans hab hbc⟩
  haveI h3 : IsTotal EndpointStat (fun a b => epKey sort_by b ≤ epKey sort_by a) :=
    ⟨fun a b => le_total _ _⟩
  haveI h4 : IsTrans EndpointStat (fun a b => epKey sort_by b ≤ epKey sort_by a) :=
    ⟨fun a b c hab hbc => le_trans hbc hab⟩
  refine ⟨endpointStatsRaw_eq_spec entries, rfl, ?_, ?_, ?_⟩
  · unfold epSorted
    by_cases h : lowerStr order = "asc"
    · rw [if_pos h]
      exact List.perm_insertionSort _ _
    · rw [if_neg h]
      exact List.perm_insertionSort _ _
  · unfold epSorted
    by_cases h : lowerStr order = "asc"
    · rw [if_pos h, if_pos h]
      exact List.sorted_insertionSort _ _
    · rw [if_neg h, if_neg h]
      exact List.sorted_insertionSort _ _
  · intro c
    unfold epSorted
    by_cases h : lowerStr order = "asc"
    · rw [if_pos h]
      apply insertionSort_filter_class
      intro a b ha hb
      simp only [decide_eq_true_eq] at ha hb
      rw [ha, hb]
    · rw [if_neg h]
      apply insertionSort_filter_class
      intro a b ha hb
      simp only [decide_eq_true_eq] at ha hb
      rw [ha, hb]

/-- Digit characters are digits. -/
theorem digitChar_isDigit : ∀ k, k < 10 → (digitChar k).isDigit = true := by decide

/-- Digit characters decode to their value. -/
theorem digitChar_toNat : ∀ k, k < 10 → (digitChar k).toNat = 48 + k := by decide

/-- `renderNatFuel` ignores sufficient fuel. -/
theorem renderNatFuel_congr : ∀ (n f g : Nat), n < f → n < g →
    renderNatFuel f n = renderNatFuel g n := by
  intro n
  induction n using Nat.strong_induction_on with
  | _ n ih =>
    intro f g hf hg
    cases f with
    | zero => omega
    | succ f2 =>
      cases g with
      | zero => omega
      | succ g2 =>
        simp only [renderNatFuel]
        by_cases h10 : n < 10
        · simp [h10]
        · rw [if_neg h10, if_neg h10, ih (n / 10) (by omega) f2 g2 (by omega) (by omega)]

/-- The defining recursion of `renderNat`. -/
theorem renderNat_eq (n : Nat) :
    renderNat n =
      if n < 10 then [digitChar n] else renderNat (n / 10) ++ [digitChar (n % 10)] := by
  by_cases h10 : n < 10
  · rw [if_pos h10]
    unfold renderNat
    simp only [renderNatFuel, h10, if_true]
  · rw [if_neg h10]
    rw [show renderNat n =
        (if n < 10 then [digitChar n] else renderNatFuel n (n / 10) ++ [digitChar (n % 10)])
      from rfl]
    rw [if_neg h10]
    rw [renderNatFuel_congr (n / 10) n (n / 10 + 1) (by omega) (by omega)]
    rfl

/-- Every character of `renderNat` is a digit. -/
theorem renderNat_digits : ∀ (n : Nat), ∀ c ∈ renderNat n, c.isDigit = true := by
  intro n
  induction n using Nat.strong_induction_on with
  | _ n ih =>
    intro c hc
    rw [renderNat_eq] at hc
    by_cases h10 : n < 10
    · rw [if_pos h10] at hc
      rw [List.mem_singleton.mp hc]
      exact digitChar_isDigit n h10
    · rw [if_neg h10] at hc
      rcases List.mem_append.mp hc with h | h
      · exact ih (n / 10) (by omega) c h
      · rw [List.mem_singleton.mp h]
        exact digitChar_isDigit (n % 10) (by omega)

/-- `renderNat` starts with a digit character. -/
theorem renderNat_head : ∀ n : Nat, ∃ c cs, renderNat n = c :: cs ∧ c.isDigit = true := by
  intro n
  induction n using Nat.strong_induction_on with
  | _ n ih =>
    rw [renderNat_eq]
    by_cases h10 : n < 10
    · exact ⟨digitChar n, [], by rw [if_pos h10], digitChar_isDigit n h10⟩
    · rw [if_neg h10]
      obtain ⟨c, cs, hrw, hdig⟩ := ih (n / 10) (by omega)
      exact ⟨c, cs ++ [digitChar (n % 10)], by rw [hrw]; rfl, hdig⟩

/-- Digits fold back to the rendered number. -/
theorem natFromDigits_renderNat : ∀ n : Nat, natFromDigits (renderNat n) = n := by
  intro n
  induction n using Nat.strong_induction_on with
  | _ n ih =>
    rw [renderNat_eq]
    by_cases h10 : n < 10
    · rw [if_pos h10]
      unfold natFromDigits
      simp only [List.foldl_cons, List.foldl_nil]
      rw [digitChar_toNat n h10]
      omega
    · rw [if_neg h10]
      unfold natFromDigits
      rw [List.foldl_append]
      have hih := ih (n / 10) (by omega)
      unfold natFromDigits at hih
      rw [hih]
      simp only [List.foldl_cons, List.foldl_nil]
      rw [digitChar_toNat (n % 10) (by omega)]
      omega

/-- `renderNat` is never empty. -/
theorem renderNat_ne_nil (n : Nat) : renderNat n ≠ [] := by
  obtain ⟨c, cs, hrw, _⟩ := renderNat_head n
  rw [hrw]
  exact List.cons_ne_nil c cs

/-- Splitting digits off a digit block followed by a non-digit remainder. -/
theorem spanDigits_append (ds rest : List Char) (hds : ∀ c ∈ ds, c.isDigit = true)
    (hrest : ∀ c cs2, rest = c :: cs2 → c.isDigit = false) :
    spanDigits (ds ++ rest) = (ds, rest) := by
  induction ds with
  | nil =>
    simp only [List.nil_append]
    unfold spanDigits
    cases hr : rest with
    | nil => simp
    | cons c cs2 =>
      have hc := hrest c cs2 hr
      simp [List.takeWhile_cons, List.dropWhile_cons, hc]
  | cons d ds2 ih =>
    have hd : d.isDigit = true := hds d (List.mem_cons_self d ds2)
    have hds2 : ∀ c ∈ ds2, c.isDigit = true := fun c hc => hds c (List.mem_cons.mpr (Or.inr hc))
    have hih := ih hds2
    unfold spanDigits at hih ⊢
    simp only [List.cons_append, List.takeWhile_cons, List.dropWhile_cons, hd, if_true]
    have h1 : (ds2 ++ rest).takeWhile Char.isDigit = ds2 := congrArg Prod.fst hih
    have h2 : (ds2 ++ rest).dropWhile Char.isDigit = rest := congrArg Prod.snd hih
    rw [h1, h2]

/-- `parseIntTok` inverts `renderInt`. -/
theorem parseIntTok_render (n : Int) (rest : List Char)
    (hrest : ∀ c cs2, rest = c :: cs2 → c.isDigit = false) :
    parseIntTok (renderInt n ++ rest) = some (n, rest) := by
  have hspan := spanDigits_append (renderNat n.natAbs) rest (renderNat_digits n.natAbs) hrest
  have hne : (renderNat n.natAbs).isEmpty = false := by
    cases hr : renderNat n.natAbs with
    | nil => exact absurd hr (renderNat_ne_nil _)
    | cons a b => rfl
  by_cases hneg : n < 0
  · have hri : renderInt n = '-' :: renderNat n.natAbs := by
      unfold renderInt
      rw [if_pos hneg]
    rw [hri, List.cons_append]
    simp only [parseIntTok, hspan, hne, Bool.false_eq_true, if_false]
    simp only [Option.some.injEq, Prod.mk.injEq, natFromDigits_renderNat]
    exact ⟨by omega, trivial⟩
  · have hri : renderInt n = renderNat n.natAbs := by
      unfold renderInt
      rw [if_neg hneg]
    rw [hri]
    obtain ⟨c, cs, hrw, hdig⟩ := renderNat_head n.natAbs
    have hcne : c ≠ '-' := by
      intro he
      rw [he] at hdig
      exact absurd hdig (by decide)
    unfold parseIntTok
    split
    · rename_i heq
      rw [hrw, List.cons_append] at heq
      cases heq
      exact absurd rfl hcne
    · simp only [hspan, hne, Bool.false_eq_true, if_false]
      simp only [Option.some.injEq, Prod.mk.injEq, natFromDigits_renderNat]
      exact ⟨by omega, trivial⟩

/-- skipWs does nothing on a non-whitespace head. -/
theorem skipWs_not_ws {c : Char} (l : List Char) (h : isWsChar c = false) :
    skipWs (c :: l) = c :: l := by
  simp [skipWs, List.dropWhile_cons, h]

/-- Parsing an ordinary string-body character. -/
theorem parseStringBody_other {c : Char} (l : List Char) (hq : c ≠ '"') (hb : c ≠ '\\') :
    parseStringBody (c :: l) = (parseStringBody l).map (fun r => (c :: r.1, r.2)) := by
  unfold parseStringBody
  split
  · rename_i heq
    cases heq
  · rename_i heq
    injection heq with h1 h2
    exact absurd h1 hq
  · rename_i a b c2 d r heq
    injection heq with h1 h2
    exact absurd h1 hb
  · rename_i e r heq
    injection heq with h1 h2
    exact absurd h1 hb
  · rename_i c2 r heq
    injection heq with h1 h2
    subst h1
    subst h2
    congr 1
    rw [parseStringBody.eq_def]

/-- Hex digits of a control character decode back. -/
theorem hexDigit_control : ∀ k, k < 32 →
    hexVal (hexDigit (k / 16)) = some (k / 16) ∧ hexVal (hexDigit (k % 16)) = some (k % 16) := by
  decide

/-- The string escape is inverted by `parseStringBody`. -/
theorem parseStringBody_escape : ∀ (cs : List Char) (rest : List Char),
    parseStringBody (escapeChars cs ++ ('"' :: rest)) = some (cs, rest) := by
  intro cs
  induction cs with
  | nil =>
    intro rest
    rfl
  | cons c cs2 ih =>
    intro rest
    show parseStringBody (escChar c ++ escapeChars cs2 ++ ('"' :: rest)) = some (c :: cs2, rest)
    by_cases h1 : c = '"'
    · subst h1
      rw [show escChar '"' = ['\\', '"'] from rfl]
      rw [show (['\\', '"'] ++ escapeChars cs2 ++ ('"' :: rest)) =
        '\\' :: '"' :: (escapeChars cs2 ++ ('"' :: rest)) from by simp]
      show (parseStringBody (escapeChars cs2 ++ ('"' :: rest))).map
          (fun r => ('"' :: r.1, r.2)) = some ('"' :: cs2, rest)
      rw [ih]
      rfl
    · by_cases h2 : c = '\\'
      · subst h2
        rw [show escChar '\\' = ['\\', '\\'] from rfl]
        rw [show (['\\', '\\'] ++ escapeChars cs2 ++ ('"' :: rest)) =
          '\\' :: '\\' :: (escapeChars cs2 ++ ('"' :: rest)) from by simp]
        show (parseStringBody (escapeChars cs2 ++ ('"' :: rest))).map
            (fun r => ('\\' :: r.1, r.2)) = some ('\\' :: cs2, rest)
        rw [ih]
        rfl
      · by_cases h3 : c = '\n'
        · subst h3
          rw [show escChar '\n' = ['\\', 'n'] from rfl]
          rw [show (['\\', 'n'] ++ escapeChars cs2 ++ ('"' :: rest)) =
            '\\' :: 'n' :: (escapeChars cs2 ++ ('"' :: rest)) from by simp]
          show (parseStringBody (escapeChars cs2 ++ ('"' :: rest))).map
              (fun r => ('\n' :: r.1, r.2)) = some ('\n' :: cs2, rest)
          rw [ih]
          rfl
        · by_cases h4 : c = '\t'
          · subst h4
            rw [show escChar '\t' = ['\\', 't'] from rfl]
            rw [show (['\\', 't'] ++ escapeChars cs2 ++ ('"' :: rest)) =
              '\\' :: 't' :: (escapeChars cs2 ++ ('"' :: rest)) from by simp]
            show (parseStringBody (escapeChars cs2 ++ ('"' :: rest))).map
                (fun r => ('\t' :: r.1, r.2)) = some ('\t' :: cs2, rest)
            rw [ih]
            rfl
          · by_cases h5 : c = '\r'
            · subst h5
              rw [show escChar '\r' = ['\\', 'r'] from rfl]
              rw [show (['\\', 'r'] ++ escapeChars cs2 ++ ('"' :: rest)) =
                '\\' :: 'r' :: (escapeChars cs2 ++ ('"' :: rest)) from by simp]
              show (parseStringBody (escapeChars cs2 ++ ('"' :: rest))).map
                  (fun r => ('\r' :: r.1, r.2)) = some ('\r' :: cs2, rest)
              rw [ih]
              rfl
            · by_cases h6 : c.toNat = 8
              · have hc : c = Char.ofNat 8 := by
                  rw [← h6, Char.ofNat_toNat]
                have hesc : escChar c = ['\\', 'b'] := by
                  unfold escChar
                  rw [if_neg h1, if_neg h2, if_neg h3, if_neg h4, if_neg h5, if_pos h6]
                rw [hesc]
                rw [show (['\\', 'b'] ++ escapeChars cs2 ++ ('"' :: rest)) =
                  '\\' :: 'b' :: (escapeChars cs2 ++ ('"' :: rest)) from by simp]
                show (parseStringBody (escapeChars cs2 ++ ('"' :: rest))).map
                    (fun r => (Char.ofNat 8 :: r.1, r.2)) = some (c :: cs2, rest)
                rw [ih, ← hc]
                rfl
              · by_cases h7 : c.toNat = 12
                · have hc : c = Char.ofNat 12 := by
                    rw [← h7, Char.ofNat_toNat]
                  have hesc : escChar c = ['\\', 'f'] := by
                    unfold escChar
                    rw [if_neg h1, if_neg h2, if_neg h3, if_neg h4, if_neg h5, if_neg h6,
                      if_pos h7]
                  rw [hesc]
                  rw [show (['\\', 'f'] ++ escapeChars cs2 ++ ('"' :: rest)) =
                    '\\' :: 'f' :: (escapeChars cs2 ++ ('"' :: rest)) from by simp]
                  show (parseStringBody (escapeChars cs2 ++ ('"' :: rest))).map
                      (fun r => (Char.ofNat 12 :: r.1, r.2)) = some (c :: cs2, rest)
                  rw [ih, ← hc]
                  rfl
                · by_cases h8 : c.toNat < 32
                  · have hesc : escChar c =
                        ['\\', 'u', '0', '0', hexDigit (c.toNat / 16), hexDigit (c.toNat % 16)] := by
                      unfold escChar
                      rw [if_neg h1, if_neg h2, if_neg h3, if_neg h4, if_neg h5, if_neg h6,
                        if_neg h7, if_pos h8]
                    rw [hesc]
                    rw [show (['\\', 'u', '0', '0', hexDigit (c.toNat / 16),
                        hexDigit (c.toNat % 16)] ++ escapeChars cs2 ++ ('"' :: rest)) =
                      '\\' :: 'u' :: '0' :: '0' :: hexDigit (c.toNat / 16) ::
                        hexDigit (c.toNat % 16) :: (escapeChars cs2 ++ ('"' :: rest))
                      from by simp]
                    show (match hexVal '0', hexVal '0', hexVal (hexDigit (c.toNat / 16)),
                          hexVal (hexDigit (c.toNat % 16)) with
                      | some x1, some x2, some x3, some x4 =>
                        (parseStringBody (escapeChars cs2 ++ ('"' :: rest))).map
                          (fun r =>
                            (Char.ofNat (((x1 * 16 + x2) * 16 + x3) * 16 + x4) :: r.1, r.2))
                      | _, _, _, _ => none) = some (c :: cs2, rest)
                    obtain ⟨hx3, hx4⟩ := hexDigit_control c.toNat h8
                    rw [hx3, hx4, show hexVal '0' = some 0 from rfl, ih]
                    show some (Char.ofNat (((0 * 16 + 0) * 16 + c.toNat / 16) * 16
                        + c.toNat % 16) :: cs2, rest) = some (c :: cs2, rest)
                    have harith : ((0 * 16 + 0) * 16 + c.toNat / 16) * 16 + c.toNat % 16
                        = c.toNat := by omega
                    rw [harith, Char.ofNat_toNat]
                  · have hesc : escChar c = [c] := by
                      unfold escChar
                      rw [if_neg h1, if_neg h2, if_neg h3, if_neg h4, if_neg h5, if_neg h6,
                        if_neg h7, if_neg h8]
                    rw [hesc]
                    rw [show ([c] ++ escapeChars cs2 ++ ('"' :: rest)) =
                      c :: (escapeChars cs2 ++ ('"' :: rest)) from by simp]
                    rw [parseStringBody_other _ h1 h2, ih]
                    rfl

/-- A digit character is not whitespace, a bracket, a brace or a quote. -/
theorem digit_char_facts (c : Char) (h : c.isDigit = true) :
    isWsChar c = false ∧ c ≠ ']' ∧ c ≠ '\x7d' ∧ c ≠ '-' := by
  have hne1 : c ≠ ' ' := fun he => by rw [he] at h; exact absurd h (by decide)
  have hne2 : c ≠ '\t' := fun he => by rw [he] at h; exact absurd h (by decide)
  have hne3 : c ≠ '\n' := fun he => by rw [he] at h; exact absurd h (by decide)
  have hne4 : c ≠ '\r' := fun he => by rw [he] at h; exact absurd h (by decide)
  refine ⟨by simp [isWsChar, hne1, hne2, hne3, hne4], ?_, ?_, ?_⟩
  · exact fun he => by rw [he] at h; exact absurd h (by decide)
  · exact fun he => by rw [he] at h; exact absurd h (by decide)
  · exact fun he => by rw [he] at h; exact absurd h (by decide)

/-- Every rendered JSON value starts with a non-whitespace character that is
not a closing bracket, closing brace or comma. -/
theorem render_head (j : Json) : ∃ c cs, j.render = c :: cs ∧ isWsChar c = false ∧
    c ≠ ']' ∧ c ≠ '\x7d' ∧ (∀ k, k < 10 → True) := by
  cases j with
  | null => exact ⟨'n', _, rfl, by decide, by decide, by decide, fun _ _ => trivial⟩
  | bool b =>
    cases b with
    | true => exact ⟨'t', _, rfl, by decide, by decide, by decide, fun _ _ => trivial⟩
    | false => exact ⟨'f', _, rfl, by decide, by decide, by decide, fun _ _ => trivial⟩
  | num n =>
    by_cases hneg : n < 0
    · refine ⟨'-', renderNat n.natAbs, ?_, by decide, by decide, by decide, fun _ _ => trivial⟩
      show renderInt n = '-' :: renderNat n.natAbs
      unfold renderInt
      rw [if_pos hneg]
    · obtain ⟨c, cs, hrw, hdig⟩ := renderNat_head n.natAbs
      obtain ⟨hws, hbr, hbc, _⟩ := digit_char_facts c hdig
      refine ⟨c, cs, ?_, hws, hbr, hbc, fun _ _ => trivial⟩
      show renderInt n = c :: cs
      unfold renderInt
      rw [if_neg hneg, hrw]
  | str s => exact ⟨'"', _, rfl, by decide, by decide, by decide, fun _ _ => trivial⟩
  | arr xs =>
    cases xs with
    | nil => exact ⟨'[', _, rfl, by decide, by decide, by decide, fun _ _ => trivial⟩
    | cons x xs2 => exact ⟨'[', _, rfl, by decide, by decide, by decide, fun _ _ => trivial⟩
  | obj kvs =>
    cases kvs with
    | nil => exact ⟨'\x7b', _, rfl, by decide, by decide, by decide, fun _ _ => trivial⟩
    | cons kv kvs2 => exact ⟨'\x7b', _, rfl, by decide, by decide, by decide, fun _ _ => trivial⟩

/-- Fuel sizes are positive. -/
theorem fuelSize_pos (j : Json) : 1 ≤ j.fuelSize := by
  cases j <;> simp [Json.fuelSize] <;> omega

/-- `parseVal` ignores a leading space. -/
theorem parseVal_space (f : Nat) (l : List Char) : parseVal f (' ' :: l) = parseVal f l := by
  cases f with
  | zero => rfl
  | succ g =>
    simp only [parseVal]
    rw [show skipWs (' ' :: l) = skipWs l from rfl]

/-- `parseMember` ignores a leading space. -/
theorem parseMember_space (f : Nat) (l : List Char) :
    parseMember f (' ' :: l) = parseMember f l := by
  cases f with
  | zero => rfl
  | succ g =>
    simp only [parseMember]
    rw [show skipWs (' ' :: l) = skipWs l from rfl]

/-- `parseVal` on a digit- or minus-headed input is the number token. -/
theorem parseVal_num_go (f : Nat) (c : Char) (cs : List Char)
    (hc : c.isDigit = true ∨ c = '-') (hws : isWsChar c = false) :
    parseVal (f + 1) (c :: cs) = (parseIntTok (c :: cs)).map (fun r => (.num r.1, r.2)) := by
  have hrefute : ∀ d : Char, d.isDigit = false → d ≠ '-' → c ≠ d := by
    intro d hd hdm he
    subst he
    rcases hc with h | h
    · rw [h] at hd
      cases hd
    · exact hdm h
  simp only [parseVal]
  rw [skipWs_not_ws cs hws]
  split
  · rename_i heq
    injection heq with h1 h2
    exact absurd h1 (hrefute 'n' (by decide) (by decide))
  · rename_i heq
    injection heq with h1 h2
    exact absurd h1 (hrefute 't' (by decide) (by decide))
  · rename_i heq
    injection heq with h1 h2
    exact absurd h1 (hrefute 'f' (by decide) (by decide))
  · rename_i heq
    injection heq with h1 h2
    exact absurd h1 (hrefute '"' (by decide) (by decide))
  · rename_i heq
    injection heq with h1 h2
    exact absurd h1 (hrefute '[' (by decide) (by decide))
  · rename_i heq
    injection heq with h1 h2
    exact absurd h1 (hrefute '\x7b' (by decide) (by decide))
  · rfl

/-- `parseVal` on a `[`-headed input whose body does not start (after
whitespace) with `]` descends into element parsing. -/
theorem parseVal_arr_go (f : Nat) (l : List Char)
    (h : ∀ cs2, skipWs l ≠ ']' :: cs2) :
    parseVal (f + 1) ('[' :: l) =
      (match parseVal f l with
       | some (v, rest2) => (parseArrTail f rest2).map (fun r => (Json.arr (v :: r.1), r.2))
       | none => none) := by
  simp only [parseVal]
  rw [skipWs_not_ws l (by decide)]
  split
  · rename_i heq
    injection heq with h1 h2
    exact absurd h1 (by decide)
  · rename_i heq
    injection heq with h1 h2
    exact absurd h1 (by decide)
  · rename_i heq
    injection heq with h1 h2
    exact absurd h1 (by decide)
  · rename_i heq
    injection heq with h1 h2
    exact absurd h1 (by decide)
  · rename_i rest heq
    injection heq with h1 h2
    subst h2
    split
    · rename_i rest2 heq2
      exact absurd heq2 (h rest2)
    · rfl
  · rename_i heq
    injection heq with h1 h2
    exact absurd h1 (by decide)
  · rename_i hno1 hno2 hno3 hno4 hno5 hno6
    exact absurd rfl (hno5 l)

/-- `parseVal` on a brace-headed input whose body does not start (after
whitespace) with a closing brace descends into member parsing. -/
theorem parseVal_obj_go (f : Nat) (l : List Char)
    (h : ∀ cs2, skipWs l ≠ '\x7d' :: cs2) :
    parseVal (f + 1) ('\x7b' :: l) =
      (match parseMember f l with
       | some (kv, rest2) => (parseObjTail f rest2).map (fun r => (Json.obj (kv :: r.1), r.2))
       | none => none) := by
  simp only [parseVal]
  rw [skipWs_not_ws l (by decide)]
  split
  · rename_i heq
    injection heq with h1 h2
    exact absurd h1 (by decide)
  · rename_i heq
    injection heq with h1 h2
    exact absurd h1 (by decide)
  · rename_i heq
    injection heq with h1 h2
    exact absurd h1 (by decide)
  · rename_i heq
    injection heq with h1 h2
    exact absurd h1 (by decide)
  · rename_i heq
    injection heq with h1 h2
    exact absurd h1 (by decide)
  · rename_i rest heq
    injection heq with h1 h2
    subst h2
    split
    · rename_i rest2 heq2
      exact absurd heq2 (h rest2)
    · rfl
  · rename_i hno1 hno2 hno3 hno4 hno5 hno6
    exact absurd rfl (hno6 l)

/-- What follows a rendered array tail starts with a non-digit. -/
theorem arrTail_close_head (xs : List Json) (rest : List Char) :
    ∀ c cs2, renderArrTail xs ++ (']' :: rest) = c :: cs2 → c.isDigit = false := by
  intro c cs2 hc
  cases xs with
  | nil =>
    simp only [renderArrTail, List.nil_append] at hc
    injection hc with h1 h2
    rw [← h1]
    decide
  | cons x xs2 =>
    simp only [renderArrTail, List.cons_append] at hc
    injection hc with h1 h2
    rw [← h1]
    decide

/-- What follows a rendered object tail starts with a non-digit. -/
theorem objTail_close_head (kvs : List (String × Json)) (rest : List Char) :
    ∀ c cs2, renderObjTail kvs ++ ('\x7d' :: rest) = c :: cs2 → c.isDigit = false := by
  intro c cs2 hc
  cases kvs with
  | nil =>
    simp only [renderObjTail, List.nil_append] at hc
    injection hc with h1 h2
    rw [← h1]
    decide
  | cons kv kvs2 =>
    simp only [renderObjTail, List.cons_append] at hc
    injection hc with h1 h2
    rw [← h1]
    decide

/-- Rendered integers start with a digit or a minus sign. -/
theorem renderInt_head (n : Int) : ∃ c cs, renderInt n = c :: cs ∧
    (c.isDigit = true ∨ c = '-') ∧ isWsChar c = false := by
  by_cases hneg : n < 0
  · refine ⟨'-', renderNat n.natAbs, ?_, Or.inr rfl, by decide⟩
    unfold renderInt
    rw [if_pos hneg]
  · obtain ⟨c, cs, hrw, hdig⟩ := renderNat_head n.natAbs
    obtain ⟨hws, _, _, _⟩ := digit_char_facts c hdig
    refine ⟨c, cs, ?_, Or.inl hdig, hws⟩
    unfold renderInt
    rw [if_neg hneg, hrw]

/-- `parseMember` on a rendered key: consumes the key literal, then looks for
the colon. -/
theorem parseMember_go (f : Nat) (k : List Char) (R : List Char) :
    parseMember (f + 1) ('"' :: (escapeChars k ++ ('"' :: R))) =
      (match skipWs R with
       | ':' :: rest3 => (parseVal f rest3).map (fun r => ((String.mk k, r.1), r.2))
       | _ => none) := by
  simp only [parseMember]
  rw [skipWs_not_ws _ (by decide)]
  split
  · rename_i rest heq
    injection heq with h1 h2
    subst h2
    rw [parseStringBody_escape k R]
  · rename_i hno
    exact absurd rfl (hno (escapeChars k ++ ('"' :: R)))

/-- `parseArrTail` at a comma descends into the next element. -/
theorem parseArrTail_comma (f : Nat) (l : List Char) :
    parseArrTail (f + 1) (',' :: l) =
      (match parseVal f l with
       | some (v, rest2) => (parseArrTail f rest2).map (fun r => (v :: r.1, r.2))
       | none => none) := by
  simp only [parseArrTail]
  rw [skipWs_not_ws l (by decide)]
  split
  · rename_i heq
    injection heq with h1 h2
    exact absurd h1 (by decide)
  · rename_i rest heq
    injection heq with h1 h2
    subst h2
    rfl
  · rename_i hno1 hno2
    exact absurd rfl (hno2 l)

/-- `parseArrTail` at the closing bracket finishes. -/
theorem parseArrTail_close (f : Nat) (rest : List Char) :
    parseArrTail (f + 1) (']' :: rest) = some ([], rest) := rfl

/-- `parseObjTail` at a comma descends into the next member. -/
theorem parseObjTail_comma (f : Nat) (l : List Char) :
    parseObjTail (f + 1) (',' :: l) =
      (match parseMember f l with
       | some (kv, rest2) => (parseObjTail f rest2).map (fun r => (kv :: r.1, r.2))
       | none => none) := by
  simp only [parseObjTail]
  rw [skipWs_not_ws l (by decide)]
  split
  · rename_i heq
    injection heq with h1 h2
    exact absurd h1 (by decide)
  · rename_i rest heq
    injection heq with h1 h2
    subst h2
    rfl
  · rename_i hno1 hno2
    exact absurd rfl (hno2 l)

/-- `parseObjTail` at the closing brace finishes. -/
theorem parseObjTail_close (f : Nat) (rest : List Char) :
    parseObjTail (f + 1) ('\x7d' :: rest) = some ([], rest) := rfl

/-- `parseVal` on a rendered string literal. -/
theorem parseVal_str_go (f : Nat) (k R : List Char) :
    parseVal (f + 1) ('"' :: (escapeChars k ++ ('"' :: R))) =
      some (.str (String.mk k), R) := by
  simp only [parseVal]
  rw [skipWs_not_ws _ (by decide)]
  split
  · rename_i heq
    injection heq with h1 h2
    exact absurd h1 (by decide)
  · rename_i heq
    injection heq with h1 h2
    exact absurd h1 (by decide)
  · rename_i heq
    injection heq with h1 h2
    exact absurd h1 (by decide)
  · rename_i rest heq
    injection heq with h1 h2
    subst h2
    rw [parseStringBody_escape k R]
    rfl
  · rename_i heq
    injection heq with h1 h2
    exact absurd h1 (by decide)
  · rename_i heq
    injection heq with h1 h2
    exact absurd h1 (by decide)
  · rename_i hno1 hno2 hno3 hno4 hno5 hno6
    exact absurd rfl (hno4 (escapeChars k ++ ('"' :: R)))

/-- `parseVal` on a rendered integer with a non-digit continuation. -/
theorem parseVal_num_render (f : Nat) (n : Int) (rest : List Char)
    (hrest : ∀ c cs2, rest = c :: cs2 → c.isDigit = false) :
    parseVal (f + 1) (renderInt n ++ rest) = some (.num n, rest) := by
  obtain ⟨c, cs, hr, hcd, hws⟩ := renderInt_head n
  rw [hr, List.cons_append, parseVal_num_go f c (cs ++ rest) hcd hws, ← List.cons_append, ← hr,
    parseIntTok_render n rest hrest]
  rfl

/-- `parseVal` on the literal `null`. -/
theorem parseVal_null_go (f : Nat) (rest : List Char) :
    parseVal (f + 1) ('n' :: 'u' :: 'l' :: 'l' :: rest) = some (.null, rest) := rfl

/-- `parseVal` on the literal `true`. -/
theorem parseVal_true_go (f : Nat) (rest : List Char) :
    parseVal (f + 1) ('t' :: 'r' :: 'u' :: 'e' :: rest) = some (.bool true, rest) := rfl

/-- `parseVal` on the literal `false`. -/
theorem parseVal_false_go (f : Nat) (rest : List Char) :
    parseVal (f + 1) ('f' :: 'a' :: 'l' :: 's' :: 'e' :: rest) = some (.bool false, rest) := rfl

/-- `parseVal` on an empty array literal. -/
theorem parseVal_arrnil_go (f : Nat) (rest : List Char) :
    parseVal (f + 1) ('[' :: ']' :: rest) = some (.arr [], rest) := rfl

/-- `parseVal` on an empty object literal. -/
theorem parseVal_objnil_go (f : Nat) (rest : List Char) :
    parseVal (f + 1) ('\x7b' :: '\x7d' :: rest) = some (.obj [], rest) := rfl

/-- A rendered member starts with a quote. -/
theorem member_head (kv : String × Json) : ∃ cs, renderMember kv = '"' :: cs := by
  obtain ⟨k, v⟩ := kv
  exact ⟨(escapeChars k.data ++ ['"']) ++ (':' :: ' ' :: Json.render v), rfl⟩

/-- Joint round-trip statement for the four mutual parsers, by fuel induction:
with enough fuel, each parser consumes exactly the rendered text and returns
the original value. -/
theorem parse_render_aux : ∀ fuel : Nat,
    (∀ (j : Json) (rest : List Char), j.fuelSize ≤ fuel →
      (∀ c cs2, rest = c :: cs2 → c.isDigit = false) →
      parseVal fuel (j.render ++ rest) = some (j, rest)) ∧
    (∀ (xs : List Json) (rest : List Char), Json.fuelSizeList xs + 1 ≤ fuel →
      parseArrTail fuel (renderArrTail xs ++ (']' :: rest)) = some (xs, rest)) ∧
    (∀ (kv : String × Json) (rest : List Char), kv.2.fuelSize + 1 ≤ fuel →
      (∀ c cs2, rest = c :: cs2 → c.isDigit = false) →
      parseMember fuel (renderMember kv ++ rest) = some (kv, rest)) ∧
    (∀ (kvs : List (String × Json)) (rest : List Char), Json.fuelSizeObj kvs + 1 ≤ fuel →
      parseObjTail fuel (renderObjTail kvs ++ ('\x7d' :: rest)) = some (kvs, rest)) := by
  intro fuel
  induction fuel with
  | zero =>
    refine ⟨?_, ?_, ?_, ?_⟩
    · intro j rest hle hrest
      have := fuelSize_pos j
      omega
    · intro xs rest hle
      omega
    · intro kv rest hle hrest
      omega
    · intro kvs rest hle
      omega
  | succ f ih =>
    obtain ⟨ihV, ihA, ihM, ihO⟩ := ih
    refine ⟨?_, ?_, ?_, ?_⟩
    · intro j rest hle hrest
      cases j with
      | null => exact parseVal_null_go f rest
      | bool b =>
        cases b with
        | true => exact parseVal_true_go f rest
        | false => exact parseVal_false_go f rest
      | num n => exact parseVal_num_render f n rest hrest
      | str s =>
        obtain ⟨d⟩ := s
        have hsh : Json.render (.str ⟨d⟩) ++ rest = '"' :: (escapeChars d ++ ('"' :: rest)) := by
          simp [Json.render, renderStringLit, List.append_assoc]
        rw [hsh, parseVal_str_go f d rest]
      | arr xs =>
        cases xs with
        | nil => exact parseVal_arrnil_go f rest
        | cons x xs2 =>
          simp only [Json.fuelSize, Json.fuelSizeList] at hle
          have hb1 : x.fuelSize ≤ f := by omega
          have hb2 : Json.fuelSizeList xs2 + 1 ≤ f := by omega
          have hsh : Json.render (.arr (x :: xs2)) ++ rest
              = '[' :: (Json.render x ++ (renderArrTail xs2 ++ (']' :: rest))) := by
            simp [Json.render, List.append_assoc]
          rw [hsh]
          have hhead : ∀ cs2,
              skipWs (Json.render x ++ (renderArrTail xs2 ++ (']' :: rest))) ≠ ']' :: cs2 := by
            obtain ⟨c, cs, hr, hws, hbr, hbc, _⟩ := render_head x
            intro cs2 hcontra
            rw [hr, List.cons_append, skipWs_not_ws _ hws] at hcontra
            injection hcontra with h1 h2
            exact hbr h1
          rw [parseVal_arr_go f _ hhead,
            ihV x (renderArrTail xs2 ++ (']' :: rest)) hb1 (arrTail_close_head xs2 rest)]
          show (parseArrTail f (renderArrTail xs2 ++ (']' :: rest))).map
              (fun r => (Json.arr (x :: r.1), r.2)) = some (Json.arr (x :: xs2), rest)
          rw [ihA xs2 rest hb2]
          rfl
      | obj kvs =>
        cases kvs with
        | nil => exact parseVal_objnil_go f rest
        | cons kv kvs2 =>
          simp only [Json.fuelSize, Json.fuelSizeObj] at hle
          have hb1 : kv.2.fuelSize + 1 ≤ f := by omega
          have hb2 : Json.fuelSizeObj kvs2 + 1 ≤ f := by omega
          have hsh : Json.render (.obj (kv :: kvs2)) ++ rest
              = '\x7b' :: (renderMember kv ++ (renderObjTail kvs2 ++ ('\x7d' :: rest))) := by
            simp [Json.render, List.append_assoc]
          rw [hsh]
          have hhead : ∀ cs2,
              skipWs (renderMember kv ++ (renderObjTail kvs2 ++ ('\x7d' :: rest)))
                ≠ '\x7d' :: cs2 := by
            obtain ⟨cs, hm⟩ := member_head kv
            intro cs2 hcontra
            rw [hm, List.cons_append, skipWs_not_ws _ (by decide)] at hcontra
            injection hcontra with h1 h2
            exact absurd h1 (by decide)
          rw [parseVal_obj_go f _ hhead,
            ihM kv (renderObjTail kvs2 ++ ('\x7d' :: rest)) hb1 (objTail_close_head kvs2 rest)]
          show (parseObjTail f (renderObjTail kvs2 ++ ('\x7d' :: rest))).map
              (fun r => (Json.obj (kv :: r.1), r.2)) = some (Json.obj (kv :: kvs2), rest)
          rw [ihO kvs2 rest hb2]
          rfl
    · intro xs rest hle
      cases xs with
      | nil => exact parseArrTail_close f rest
      | cons x xs2 =>
        simp only [Json.fuelSizeList] at hle
        have hb1 : x.fuelSize ≤ f := by omega
        have hb2 : Json.fuelSizeList xs2 + 1 ≤ f := by omega
        have hsh : renderArrTail (x :: xs2) ++ (']' :: rest)
            = ',' :: ' ' :: (Json.render x ++ (renderArrTail xs2 ++ (']' :: rest))) := by
          simp [renderArrTail, List.append_assoc]
        rw [hsh, parseArrTail_comma f _, parseVal_space f _,
          ihV x (renderArrTail xs2 ++ (']' :: rest)) hb1 (arrTail_close_head xs2 rest)]
        show (parseArrTail f (renderArrTail xs2 ++ (']' :: rest))).map
            (fun r => (x :: r.1, r.2)) = some (x :: xs2, rest)
        rw [ihA xs2 rest hb2]
        rfl
    · intro kv rest hle hrest
      obtain ⟨k, v⟩ := kv
      obtain ⟨d⟩ := k
      have hbv : v.fuelSize ≤ f := by
        simp only at hle
        omega
      have hsh : renderMember (⟨d⟩, v) ++ rest
          = '"' :: (escapeChars d ++ ('"' :: (':' :: ' ' :: (Json.render v ++ rest)))) := by
        simp [renderMember, renderStringLit, List.append_assoc]
      rw [hsh, parseMember_go f d _]
      show (parseVal f (' ' :: (Json.render v ++ rest))).map
          (fun r => ((String.mk d, r.1), r.2)) = some ((⟨d⟩, v), rest)
      rw [parseVal_space f _, ihV v rest hbv hrest]
      rfl
    · intro kvs rest hle
      cases kvs with
      | nil => exact parseObjTail_close f rest
      | cons kv kvs2 =>
        simp only [Json.fuelSizeObj] at hle
        have hb1 : kv.2.fuelSize + 1 ≤ f := by omega
        have hb2 : Json.fuelSizeObj kvs2 + 1 ≤ f := by omega
        have hsh : renderObjTail (kv :: kvs2) ++ ('\x7d' :: rest)
            = ',' :: ' ' :: (renderMember kv ++ (renderObjTail kvs2 ++ ('\x7d' :: rest))) := by
          simp [renderObjTail, List.append_assoc]
        rw [hsh, parseObjTail_comma f _, parseMember_space f _,
          ihM kv (renderObjTail kvs2 ++ ('\x7d' :: rest)) hb1 (objTail_close_head kvs2 rest)]
        show (parseObjTail f (renderObjTail kvs2 ++ ('\x7d' :: rest))).map
            (fun r => (kv :: r.1, r.2)) = some (kv :: kvs2, rest)
        rw [ihO kvs2 rest hb2]
        rfl

/-- The fuel demanded by a value is at most twice its rendered length
(companions for tails), by induction on a fuel bound. -/
theorem fuelSize_le_aux : ∀ n : Nat,
    (∀ j : Json, j.fuelSize ≤ n → j.fuelSize ≤ 2 * j.render.length) ∧
    (∀ xs : List Json, Json.fuelSizeList xs ≤ n →
      Json.fuelSizeList xs ≤ 2 * (renderArrTail xs).length) ∧
    (∀ kvs : List (String × Json), Json.fuelSizeObj kvs ≤ n →
      Json.fuelSizeObj kvs ≤ 2 * (renderObjTail kvs).length) := by
  intro n
  induction n with
  | zero =>
    refine ⟨?_, ?_, ?_⟩
    · intro j hle
      have := fuelSize_pos j
      omega
    · intro xs hle
      cases xs with
      | nil => simp [Json.fuelSizeList]
      | cons x xs2 =>
        simp only [Json.fuelSizeList] at hle
        have := fuelSize_pos x
        omega
    · intro kvs hle
      cases kvs with
      | nil => simp [Json.fuelSizeObj]
      | cons kv kvs2 =>
        simp only [Json.fuelSizeObj] at hle
        have := fuelSize_pos kv.2
        omega
  | succ f ih =>
    obtain ⟨ihV, ihA, ihO⟩ := ih
    have hmem : ∀ kv : String × Json,
        kv.2.render.length + 4 ≤ (renderMember kv).length := by
      intro ⟨k, v⟩
      simp [renderMember, renderStringLit]
    refine ⟨?_, ?_, ?_⟩
    · intro j hle
      cases j with
      | null => simp [Json.fuelSize, Json.render]
      | bool b => cases b <;> simp [Json.fuelSize, Json.render]
      | num m =>
        have h1 : 1 ≤ (Json.render (.num m)).length := by
          obtain ⟨c, cs, hr, h2, h3⟩ := renderInt_head m
          show 1 ≤ (renderInt m).length
          rw [hr]
          simp
        simp only [Json.fuelSize]
        omega
      | str s =>
        have h1 : 1 ≤ (Json.render (.str s)).length := by
          show 1 ≤ (renderStringLit s).length
          simp [renderStringLit]
        simp only [Json.fuelSize]
        omega
      | arr xs =>
        cases xs with
        | nil => simp [Json.fuelSize, Json.fuelSizeList, Json.render]
        | cons x xs2 =>
          simp only [Json.fuelSize, Json.fuelSizeList] at hle ⊢
          have hx : x.fuelSize ≤ 2 * x.render.length := ihV x (by omega)
          have hxs : Json.fuelSizeList xs2 ≤ 2 * (renderArrTail xs2).length :=
            ihA xs2 (by omega)
          have hlen : (Json.render (.arr (x :: xs2))).length
              = 2 + x.render.length + (renderArrTail xs2).length := by
            simp [Json.render]
            omega
          rw [hlen]
          omega
      | obj kvs =>
        cases kvs with
        | nil => simp [Json.fuelSize, Json.fuelSizeObj, Json.render]
        | cons kv kvs2 =>
          simp only [Json.fuelSize, Json.fuelSizeObj] at hle ⊢
          have hx : kv.2.fuelSize ≤ 2 * kv.2.render.length := ihV kv.2 (by omega)
          have hxs : Json.fuelSizeObj kvs2 ≤ 2 * (renderObjTail kvs2).length :=
            ihO kvs2 (by omega)
          have hm := hmem kv
          have hlen : (Json.render (.obj (kv :: kvs2))).length
              = 2 + (renderMember kv).length + (renderObjTail kvs2).length := by
            simp [Json.render]
            omega
          rw [hlen]
          omega
    · intro xs hle
      cases xs with
      | nil => simp [Json.fuelSizeList]
      | cons x xs2 =>
        simp only [Json.fuelSizeList] at hle ⊢
        have hx : x.fuelSize ≤ 2 * x.render.length := ihV x (by omega)
        have hxs : Json.fuelSizeList xs2 ≤ 2 * (renderArrTail xs2).length :=
          ihA xs2 (by omega)
        have hlen : (renderArrTail (x :: xs2)).length
            = 2 + x.render.length + (renderArrTail xs2).length := by
          simp [renderArrTail]
          omega
        rw [hlen]
        omega
    · intro kvs hle
      cases kvs with
      | nil => simp [Json.fuelSizeObj]
      | cons kv kvs2 =>
        simp only [Json.fuelSizeObj] at hle ⊢
        have hx : kv.2.fuelSize ≤ 2 * kv.2.render.length := ihV kv.2 (by omega)
        have hxs : Json.fuelSizeObj kvs2 ≤ 2 * (renderObjTail kvs2).length :=
          ihO kvs2 (by omega)
        have hm := hmem kv
        have hlen : (renderObjTail (kv :: kvs2)).length
            = 2 + (renderMember kv).length + (renderObjTail kvs2).length := by
          simp [renderObjTail]
          omega
        rw [hlen]
        omega

/-- The fuel built into `Json.parse` covers every rendered value. -/
theorem fuelSize_le_render (j : Json) : j.fuelSize ≤ 2 * j.render.length :=
  (fuelSize_le_aux j.fuelSize).1 j (le_refl _)

/-- Rendering then parsing restores the value. -/
theorem parse_render (j : Json) : Json.parse j.render = some j := by
  unfold Json.parse
  have hb : j.fuelSize ≤ 2 * j.render.length + 2 := by
    have := fuelSize_le_render j
    omega
  have h := (parse_render_aux (2 * j.render.length + 2)).1 j []
    (by simpa using hb) (by intro c cs2 hcc; cases hcc)
  rw [List.append_nil] at h
  rw [h]
  rfl

/-- `trimChars` is the identity when both ends are non-whitespace. -/
theorem trimChars_sandwich (c d : Char) (mid : List Char)
    (hc : isWsChar c = false) (hd : isWsChar d = false) :
    trimChars (c :: (mid ++ [d])) = c :: (mid ++ [d]) := by
  unfold trimChars
  have h1 : (c :: (mid ++ [d])).dropWhile (fun x => isWsChar x) = c :: (mid ++ [d]) := by
    simp [List.dropWhile_cons, hc]
  rw [h1]
  have h2 : (c :: (mid ++ [d])).reverse = d :: (mid.reverse ++ [c]) := by
    simp
  rw [h2]
  have h3 : (d :: (mid.reverse ++ [c])).dropWhile (fun x => isWsChar x)
      = d :: (mid.reverse ++ [c]) := by
    simp [List.dropWhile_cons, hd]
  rw [h3, ← h2, List.reverse_reverse]

/-- A rendered array is already stripped. -/
theorem trimChars_render_arr (xs : List Json) :
    trimChars (Json.render (.arr xs)) = Json.render (.arr xs) := by
  cases xs with
  | nil => rfl
  | cons x xs2 =>
    have hsh : Json.render (.arr (x :: xs2))
        = '[' :: ((Json.render x ++ renderArrTail xs2) ++ [']']) := by
      simp [Json.render, List.append_assoc]
    rw [hsh, trimChars_sandwich '[' ']' _ (by decide) (by decide)]

/-- A rendered object is already stripped. -/
theorem trimChars_render_obj (kvs : List (String × Json)) :
    trimChars (Json.render (.obj kvs)) = Json.render (.obj kvs) := by
  cases kvs with
  | nil => rfl
  | cons kv kvs2 =>
    have hsh : Json.render (.obj (kv :: kvs2))
        = '\x7b' :: ((renderMember kv ++ renderObjTail kvs2) ++ ['\x7d']) := by
      simp [Json.render, List.append_assoc]
    rw [hsh, trimChars_sandwich '\x7b' '\x7d' _ (by decide) (by decide)]

/-- `_write_jsonl` renders exactly the dict elements, in order, and counts
them. -/
theorem write_jsonl_eq (xs : List Json) :
    write_jsonl xs = ((xs.filter Json.isDict).map Json.render,
      (xs.filter Json.isDict).length) := by
  induction xs with
  | nil => rfl
  | cons it rest ih =>
    by_cases h : it.isDict
    · simp [write_jsonl, h, ih, List.filter_cons]
    · simp [write_jsonl, h, ih, List.filter_cons]

/-- `read_lines` is the identity on a store of rendered dicts. -/
theorem read_lines_rendered (xs : List Json) (h : ∀ x ∈ xs, Json.isDict x = true) :
    read_lines (xs.map Json.render) = xs.map Json.render := by
  have htrim : ∀ x ∈ xs, trimChars (Json.render x) = Json.render x := by
    intro x hx
    have hd := h x hx
    cases x with
    | obj kvs => exact trimChars_render_obj kvs
    | null => simp [Json.isDict] at hd
    | bool b => simp [Json.isDict] at hd
    | num n => simp [Json.isDict] at hd
    | str s => simp [Json.isDict] at hd
    | arr ys => simp [Json.isDict] at hd
  have hne : ∀ x ∈ xs, (Json.render x).isEmpty = false := by
    intro x hx
    obtain ⟨c, cs, hr, _⟩ := render_head x
    rw [hr]
    rfl
  unfold read_lines
  rw [List.map_map]
  rw [List.map_congr_left (fun x hx => by
    show trimChars (Json.render x) = Json.render x
    exact htrim x hx)]
  rw [List.filter_eq_self.mpr]
  intro l hl
  obtain ⟨x, hx, hrw⟩ := List.mem_map.mp hl
  rw [← hrw]
  simp [hne x hx]

/-- C7: Ingesting a payload rendering a JSON array writes exactly its object
elements: the store read back is one line per object element in order, each
line parses back to a value equal to the corresponding input object, the
reported count is the number of object elements, and non-object elements are
silently skipped and not counted (when all N elements are objects the count
and the number of lines are both N). -/
theorem upload_array_roundtrip (store : List (List Char)) (xs : List Json) :
    (save_upload store (Json.render (.arr xs))).2
      = .ok { mode := "json_array", written := (xs.filter Json.isDict).length } ∧
    read_lines (save_upload store (Json.render (.arr xs))).1
      = (xs.filter Json.isDict).map Json.render ∧
    (read_lines (save_upload store (Json.render (.arr xs))).1).map Json.parse
      = (xs.filter Json.isDict).map some ∧
    ((∀ x ∈ xs, x.isDict = true) → (xs.filter Json.isDict).length = xs.length) := by
  have hcne : (Json.render (.arr xs)).isEmpty = false := by
    cases xs <;> rfl
  have htr := trimChars_render_arr xs
  have htne : (trimChars (Json.render (.arr xs))).isEmpty = false := by
    rw [htr]
    exact hcne
  have hsu : save_upload store (Json.render (.arr xs))
      = ((xs.filter Json.isDict).map Json.render,
         .ok { mode := "json_array", written := (xs.filter Json.isDict).length }) := by
    simp [save_upload, hcne, htr, htne, parse_render (Json.arr xs), write_jsonl_eq]
  have hdicts : ∀ x ∈ xs.filter Json.isDict, Json.isDict x = true :=
    fun x hx => (List.mem_filter.mp hx).2
  refine ⟨by rw [hsu], ?_, ?_, ?_⟩
  · rw [hsu]
    exact read_lines_rendered _ hdicts
  · rw [hsu, read_lines_rendered _ hdicts, List.map_map]
    exact List.map_congr_left (fun x hx => parse_render x)
  · intro hall
    rw [List.filter_eq_self.mpr hall]

/-- C7 witness: a concrete two-object array round-trips with count 2. -/
theorem upload_array_roundtrip_witness :
    (save_upload []
        (Json.render (.arr [.obj [("a", Json.num 1)], .obj [("b", Json.str "x")]]))).2
      = .ok { mode := "json_array", written := 2 } ∧
    (read_lines (save_upload []
        (Json.render (.arr [.obj [("a", Json.num 1)], .obj [("b", Json.str "x")]]))).1).map
        Json.parse
      = [some (.obj [("a", Json.num 1)]), some (.obj [("b", Json.str "x")])] ∧
    ([Json.obj [("a", Json.num 1)], Json.obj [("b", Json.str "x")]].filter
        Json.isDict).length
      = [Json.obj [("a", Json.num 1)], Json.obj [("b", Json.str "x")]].length := by
  obtain ⟨h1, h2, h3, h4⟩ :=
    upload_array_roundtrip [] [.obj [("a", Json.num 1)], .obj [("b", Json.str "x")]]
  exact ⟨h1, h3, h4 (by decide)⟩

/-- C1 counterexample: the payload `42` decodes and trims to non-empty text
that parses as a top-level JSON number — neither array nor object — yet
`save_upload` reports a successful `raw_jsonl` ingest and overwrites the
store instead of raising a client input error. -/
theorem save_upload_counterexample :
    isErrResult (save_upload [['x']] ['4', '2']).2 = false ∧
    (save_upload [['x']] ['4', '2']).1 ≠ [['x']] := by
  constructor
  · rfl
  · decide

/-- C1 (amended): an upload whose decoded, trimmed text is empty is rejected
with a client input error and leaves the store unchanged (validation happens
before any write); but a non-empty payload parsing as a top-level scalar
(neither array nor object) is NOT rejected: it falls through to the raw-JSONL
path, overwriting the store with the split lines and reporting success. -/
theorem save_upload_validation (store : List (List Char)) (content : List Char) (j : Json) :
    ((trimChars content).isEmpty = true →
      (save_upload store content).1 = store ∧
      isErrResult (save_upload store content).2 = true) ∧
    (content.isEmpty = false → (trimChars content).isEmpty = false →
      Json.parse (trimChars content) = some j → j.isArr = false → j.isDict = false →
      (save_upload store content).1 = splitNl (trimChars content) ∧
      isErrResult (save_upload store content).2 = false) := by
  refine ⟨?_, ?_⟩
  · intro htrim
    by_cases hc : content.isEmpty
    · simp [save_upload, hc, isErrResult]
    · simp [save_upload, hc, htrim, isErrResult]
  · intro hc htrim hp harr hdict
    cases j with
    | arr xs2 => simp [Json.isArr] at harr
    | obj kvs => simp [Json.isDict] at hdict
    | null => simp [save_upload, hc, htrim, hp, isErrResult]
    | bool b => simp [save_upload, hc, htrim, hp, isErrResult]
    | num n => simp [save_upload, hc, htrim, hp, isErrResult]
    | str s => simp [save_upload, hc, htrim, hp, isErrResult]

/-- C1 witness: a whitespace-only payload is rejected leaving the store
unchanged; the scalar payload `42` goes through the raw fallback. -/
theorem save_upload_validation_witness :
    ((save_upload [['x']] [' ']).1 = [['x']] ∧
      isErrResult (save_upload [['x']] [' ']).2 = true) ∧
    ((save_upload [['x']] ['4', '2']).1 = splitNl (trimChars ['4', '2']) ∧
      isErrResult (save_upload [['x']] ['4', '2']).2 = false) :=
  ⟨(save_upload_validation [['x']] [' '] Json.null).1 (by decide),
   (save_upload_validation [['x']] ['4', '2'] (Json.num 42)).2 (by decide) (by decide)
     rfl rfl rfl⟩
